import Mathlib

/-!
Verification of the `sync` MySQL reconciliation tool.

Two engines are embedded here:

* the data-sync service (Go package `service`): change detection
  (`needSync` and its strategy fallbacks), the paged replication loop of
  `syncTable`, the retrying batch writer `syncBatchData`, and the drift
  cleanup `cleanupTargetTable`;
* the structure comparer (Go package `sync` of `mysql-structure-sync`):
  the catalog snapshot extractor `getTableStructure` and the differ
  `Compare` with its DDL renderers.

Database queries are embedded by passing their result sets (catalog rows,
table contents, strategy outcomes) as explicit arguments; a query that the
Go code performs is represented by reading that argument at the same point
of the control flow.  Durations are in milliseconds as naturals.  Go map
iteration order is unspecified; where the Go code ranges over a map, the
embedding either fixes first-insertion order as one admissible
linearization (the differ, whose per-name output is order-independent) or
takes the iteration order as an explicit parameter that must be a
permutation of the keys (the index list of `getTableStructure`, where the
order is observable in the result).
-/

namespace Service

/-- Retry constants of `syncBatchData` (Go: `retryCount = 3`,
`baseDelay = 100ms`, `maxRetryDelay = 2s`), delays in milliseconds. -/
def retryCount : Nat := 3

/-- Base backoff delay of `syncBatchData`, in milliseconds. -/
def baseDelayMs : Nat := 100

/-- Backoff ceiling of `syncBatchData`, in milliseconds. -/
def maxRetryDelayMs : Nat := 2000

/-- Go: `delay := baseDelay * 2^attempt; if delay > maxRetryDelay
{ delay = maxRetryDelay }` (the float computation is exact in this range). -/
def retryDelayMs (attempt : Nat) : Nat :=
  min (baseDelayMs * 2 ^ attempt) maxRetryDelayMs

/-- Index of the first record that fails on the given attempt, if any
(`ok attempt i = true` means `syncSingleRecord` succeeds for record `i` on
that attempt).  Go iterates the records in order and breaks at the first
error, so only the index of the first failure is observable. -/
def firstFailureIdx (ok : Nat → Nat → Bool) (n : Nat) (attempt : Nat) : Option Nat :=
  (List.range n).find? (fun i => ! ok attempt i)

/-- The retry loop of `syncBatchData` over `n` records.  State carried
between attempts: the remaining attempt budget, the next attempt number,
whether `lastErr` has been set (Go never clears it once set), and the
backoff delays slept so far.  Returns `(success?, delays)`: Go returns
`nil` only when an attempt finishes with `lastErr == nil`, and the
wrapped error once the attempt budget is exhausted. -/
def syncBatchAttempts (ok : Nat → Nat → Bool) (n : Nat) :
    Nat → Nat → Bool → List Nat → Bool × List Nat
  | 0, _, _, delays => (false, delays)
  | fuel + 1, attempt, hasErr, delays =>
    match firstFailureIdx ok n attempt with
    | some _ =>
        syncBatchAttempts ok n fuel (attempt + 1) true (delays ++ [retryDelayMs attempt])
    | none =>
        if hasErr then syncBatchAttempts ok n fuel (attempt + 1) hasErr delays
        else (true, delays)

/-- `syncBatchData` on a page of `n` records: an empty page returns
success before the retry loop; otherwise the retry loop runs with
`retryCount` attempts, `lastErr` clear and no delay slept yet. -/
def syncBatchData (n : Nat) (ok : Nat → Nat → Bool) : Bool × List Nat :=
  if n = 0 then (true, []) else syncBatchAttempts ok n retryCount 0 false []

/-- One source/target row for the data-replication model: the primary-key
value and the value of the configured update-timestamp column. -/
structure Row where
  id : Nat
  ts : Nat
deriving DecidableEq, Repr

/-- Go: `SELECT updateField ... ORDER BY updateField DESC LIMIT 1` scanned
into a `time.Time`; with no rows the scanned value stays the zero time.
Embedded as the maximum timestamp of the table, `0` when empty. -/
def targetMaxTs (rows : List Row) : Nat :=
  (rows.map Row.ts).foldr max 0

/-- `INSERT ... ON DUPLICATE KEY UPDATE`: replace the row with the same
primary key if present, append otherwise. -/
def upsert (t : List Row) (r : Row) : List Row :=
  if t.any (fun x => x.id = r.id) then t.map (fun x => if x.id = r.id then r else x)
  else t ++ [r]

/-- Apply one page of records to the target, row by row. -/
def upsertAll (t : List Row) (recs : List Row) : List Row :=
  recs.foldl upsert t

/-- The incremental source read of one page: rows whose timestamp exceeds
the floor, offset/limit paged (Go: `WHERE field > ? OFFSET o LIMIT b`). -/
def incrPageRecords (source : List Row) (floor : Nat) (page batch : Nat) : List Row :=
  (((source.filter (fun r => floor < r.ts)).drop (page * batch)).take batch)

/-- The source records fetched for one page of `syncTable`.  Full mode
reads an unfiltered offset/limit page.  Incremental mode with
`check_method = "update_time"` and a nonempty update field first queries
the target's current maximum timestamp (inside the page loop, on every
page) and reads source rows above that floor.  Any other incremental
configuration leaves `sourceRecords` empty. -/
def pageRecords (syncMode checkMethod updateField : String)
    (source target : List Row) (page batch : Nat) : List Row :=
  if syncMode = "full" then (source.drop (page * batch)).take batch
  else if checkMethod = "update_time" ∧ updateField ≠ "" then
    incrPageRecords source (targetMaxTs target) page batch
  else []

/-- The page loop of `syncTable`: for each page index, fetch that page's
source records (against the current target state) and apply them to the
target.  Returns the per-page record slices and the final target state.
Failure paths (query or batch errors) are not modelled: every database
call in scope succeeds. -/
def pageLoop (syncMode checkMethod updateField : String)
    (source : List Row) (batch : Nat) :
    List Nat → List Row → List (List Row) × List Row
  | [], t => ([], t)
  | p :: ps, t =>
    let recs := pageRecords syncMode checkMethod updateField source t p batch
    let t' := upsertAll t recs
    let rest := pageLoop syncMode checkMethod updateField source batch ps t'
    (recs :: rest.1, rest.2)

/-- Target state at the start of each page of the page loop (the state the
incremental floor query observes on that page). -/
def pageStates (syncMode checkMethod updateField : String)
    (source : List Row) (batch : Nat) :
    List Nat → List Row → List (List Row)
  | [], _ => []
  | p :: ps, t =>
    t :: pageStates syncMode checkMethod updateField source batch ps
      (upsertAll t (pageRecords syncMode checkMethod updateField source t p batch))

/-- Go: `totalPages := int(math.Ceil(float64(totalCount) / float64(batchSize)))`,
exact ceiling division on naturals (the float computation is exact for
realistic row counts). -/
def totalPages (n b : Nat) : Nat := (n + b - 1) / b

/-- `cleanupTargetTable`: resolve the primary key, and inside one
transaction: if the target is empty, do nothing; otherwise copy the source
into a temporary table and delete the target rows whose primary key has no
match there (left-join anti-join). -/
def cleanupTargetTable (source target : List Row) : List Row :=
  if target.length = 0 then target
  else target.filter (fun t1 => source.any (fun t2 => t2.id = t1.id))

/-- The data phase of `syncTable` after change detection: count the source,
page through it, then run drift cleanup.  Returns the per-page record
slices and the final target state. -/
def syncTableDataRun (syncMode checkMethod updateField : String)
    (source : List Row) (batch : Nat) (target : List Row) :
    List (List Row) × List Row :=
  let pl := pageLoop syncMode checkMethod updateField source batch
    (List.range (totalPages source.length batch)) target
  (pl.1, cleanupTargetTable source pl.2)

/-- Result of one full-mode `syncTable` run over a generic record type:
the pages read and the terminal task state, in the error-free model. -/
structure FullRunResult (α : Type) where
  pages : List (List α)
  status : String
  cleanupRan : Bool
deriving Repr

/-- Full-mode `syncTable` over an opaque record type: count the source,
page with `Offset (page*batch) Limit batch`, then cleanup and mark the
task `"completed"` (no database call fails in this model). -/
def syncTableFull {α : Type} (source : List α) (batch : Nat) : FullRunResult α :=
  { pages := (List.range (totalPages source.length batch)).map
      (fun page => (source.drop (page * batch)).take batch)
    status := "completed"
    cleanupRan := true }

/-- `getAllColumns`: the catalog column-name query for a table; a result
with zero columns is turned into an error (Go: `表 %s 没有任何字段`). -/
def getAllColumns (cols : List String) : Except String (List String) :=
  if cols.isEmpty then Except.error "table has no columns" else Except.ok cols

/-- Table-pair configuration (`config.TablePair`). -/
structure TablePair where
  Source : String
  Target : String
  CheckMethod : String
  UpdateField : String
deriving DecidableEq, Repr

/-- `checkByUpdateTime`: re-query the source table's columns; if the
update field is absent fall back to the checksum strategy, else compare
the two sides' maximum timestamps.  The strategy outcomes (checksum
comparison, timestamp comparison) are the results the corresponding
queries would produce, passed in as arguments. -/
def checkByUpdateTime (sourceCols : List String) (updateField : String)
    (checksumResult timesResult : Except String Bool) : Except String Bool :=
  match getAllColumns sourceCols with
  | Except.error e => Except.error e
  | Except.ok cols =>
    if cols.contains updateField then timesResult
    else checksumResult

/-- `needSync`: select the detection strategy from the pair's
`check_method`.  `"update_time"` with an empty update field falls back to
checksum; `"count"` compares row counts; `"checksum"` and every other
(unrecognized) method run the checksum strategy (Go `default` case). -/
def needSync (pair : TablePair) (sourceCols : List String)
    (checksumResult countResult timesResult : Except String Bool) :
    Except String Bool :=
  if pair.CheckMethod = "update_time" then
    if pair.UpdateField = "" then checksumResult
    else checkByUpdateTime sourceCols pair.UpdateField checksumResult timesResult
  else if pair.CheckMethod = "count" then countResult
  else checksumResult

end Service

namespace Comparer

/-- Scan for the pattern at each suffix of the text (helper for Go
`strings.Contains`). -/
def infixAt (pat : List Char) : List Char → Bool
  | [] => pat.isEmpty
  | c :: rest => pat.isPrefixOf (c :: rest) || infixAt pat rest

/-- Go `strings.Contains`: substring containment. -/
def strContains (s pat : String) : Bool :=
  infixAt pat.toList s.toList

/-- `ColumnModel` of the comparer.  `sql.NullString` fields (`DefaultValue`,
`OnUpdate`) are embedded as `Option String`: `Valid=false` is `none`,
`Valid=true` with text `s` is `some s`. -/
structure ColumnModel where
  Name : String
  DataType : String
  IsNullable : String
  ColumnKey : String
  DefaultValue : Option String
  Extra : String
  OnUpdate : Option String
deriving DecidableEq, Repr

/-- `IndexModel` of the comparer (`NonUnique` is the catalog's integer). -/
structure IndexModel where
  Name : String
  Columns : List String
  NonUnique : Int
  IndexType : String
deriving DecidableEq, Repr

/-- `PrimaryKeyModel` of the comparer. -/
structure PrimaryKeyModel where
  Name : String
  Columns : List String
deriving DecidableEq, Repr

/-- `TableModel` of the comparer; `PrimaryKey` is a nullable pointer in Go,
hence an `Option`. -/
structure TableModel where
  Name : String
  Columns : List ColumnModel
  Indexes : List IndexModel
  PrimaryKey : Option PrimaryKeyModel
deriving DecidableEq, Repr

/-- One row of the `INFORMATION_SCHEMA.COLUMNS` query of
`getTableStructure`, listed in `ORDINAL_POSITION` order. -/
structure ColumnRow where
  columnName : String
  columnType : String
  isNullable : String
  columnKey : String
  columnDefault : Option String
  extra : String
deriving DecidableEq, Repr

/-- One row of the `INFORMATION_SCHEMA.STATISTICS` query of
`getTableStructure`, listed in `(INDEX_NAME, SEQ_IN_INDEX)` order. -/
structure IndexRow where
  indexName : String
  columnName : String
  nonUnique : Int
  indexType : String
deriving DecidableEq, Repr

/-- The column scan of `getTableStructure`: copy the catalog fields and
derive `OnUpdate` by searching `EXTRA` for `on update CURRENT_TIMESTAMP`. -/
def mkColumn (r : ColumnRow) : ColumnModel :=
  { Name := r.columnName
    DataType := r.columnType
    IsNullable := r.isNullable
    ColumnKey := r.columnKey
    DefaultValue := r.columnDefault
    Extra := r.extra
    OnUpdate := if strContains r.extra "on update CURRENT_TIMESTAMP" then
        some "CURRENT_TIMESTAMP"
      else none }

/-- Primary-key accumulation of the column scan: a `PRI` column creates the
`PRIMARY` key if absent and appends its name in encounter order. -/
def accumPK (pk : Option PrimaryKeyModel) (r : ColumnRow) : Option PrimaryKeyModel :=
  if r.columnKey = "PRI" then
    match pk with
    | none => some { Name := "PRIMARY", Columns := [r.columnName] }
    | some p => some { Name := p.Name, Columns := p.Columns ++ [r.columnName] }
  else pk

/-- One step of the index scan: append the column to an existing entry of
`indexMap` or insert a fresh `IndexModel` for a new index name. -/
def addIndexRow (m : List (String × IndexModel)) (r : IndexRow) :
    List (String × IndexModel) :=
  if m.any (fun p => p.1 = r.indexName) then
    m.map (fun p =>
      if p.1 = r.indexName then
        (p.1, { Name := p.2.Name, Columns := p.2.Columns ++ [r.columnName]
                NonUnique := p.2.NonUnique, IndexType := p.2.IndexType })
      else p)
  else
    m ++ [(r.indexName,
      { Name := r.indexName, Columns := [r.columnName]
        NonUnique := r.nonUnique, IndexType := r.indexType })]

/-- The index scan of `getTableStructure`: group the statistics rows by
index name into `indexMap`, skipping the `PRIMARY` rows.  The association
list records insertion order; iteration order over the Go map is a
separate, unspecified choice. -/
def buildIndexMap (rows : List IndexRow) : List (String × IndexModel) :=
  rows.foldl (fun m r => if r.indexName = "PRIMARY" then m else addIndexRow m r) []

/-- `getTableStructure` on the catalog answer for one table.  `mapOrder` is
the iteration order Go uses when converting `indexMap` to the slice
`table.Indexes` — unspecified by the language, so it is a parameter; a run
of the Go program realizes some permutation of the map's keys. -/
def getTableStructure (tableName : String) (colRows : List ColumnRow)
    (idxRows : List IndexRow) (mapOrder : List String) : TableModel :=
  let im := buildIndexMap idxRows
  { Name := tableName
    Columns := colRows.map mkColumn
    Indexes := mapOrder.filterMap
      (fun n => (im.find? (fun p => p.1 = n)).map Prod.snd)
    PrimaryKey := colRows.foldl accumPK none }

/-- `getTableStructure` with its error channel: the Go function returns an
error only when a catalog query or scan fails; with the catalog answers
supplied, it always succeeds — there is no zero-column check. -/
def getTableStructureE (tableName : String) (colRows : List ColumnRow)
    (idxRows : List IndexRow) (mapOrder : List String) :
    Except String TableModel :=
  Except.ok (getTableStructure tableName colRows idxRows mapOrder)

/-- Go `DifferenceType` constant `AddColumn`. -/
def AddColumn : String := "ADD_COLUMN"

/-- Go `DifferenceType` constant `ModifyColumn`. -/
def ModifyColumn : String := "MODIFY_COLUMN"

/-- Go `DifferenceType` constant `DropColumn`. -/
def DropColumn : String := "DROP_COLUMN"

/-- Go `DifferenceType` constant `AddIndex`. -/
def AddIndex : String := "ADD_INDEX"

/-- Go `DifferenceType` constant `ModifyIndex` (declared but never
emitted: a modify is materialized as drop + add). -/
def ModifyIndex : String := "MODIFY_INDEX"

/-- Go `DifferenceType` constant `DropIndex`. -/
def DropIndex : String := "DROP_INDEX"

/-- Go `DifferenceType` constant `AddPrimaryKey`. -/
def AddPrimaryKey : String := "ADD_PRIMARY_KEY"

/-- Go `DifferenceType` constant `DropPrimaryKey`. -/
def DropPrimaryKey : String := "DROP_PRIMARY_KEY"

/-- `Difference` (Go field `Type` is `dtype` here: `Type` is reserved). -/
structure Difference where
  dtype : String
  Name : String
  Description : String
  SQL : String
deriving DecidableEq, Repr

/-- `SyncPlan`. -/
structure SyncPlan where
  TableName : String
  Differences : List Difference
  Status : String
deriving DecidableEq, Repr

/-- Insert-or-overwrite on an association list: the embedding of one Go
map assignment `m[k] = v` (insertion order is remembered so the map can
later be iterated in a definite linearization). -/
def mapInsert {α : Type} (m : List (String × α)) (k : String) (v : α) :
    List (String × α) :=
  if m.any (fun p => p.1 = k) then
    m.map (fun p => if p.1 = k then (k, v) else p)
  else m ++ [(k, v)]

/-- Go map lookup `m[k]`. -/
def mapGet {α : Type} (m : List (String × α)) (k : String) : Option α :=
  (m.find? (fun p => p.1 = k)).map Prod.snd

/-- Build a Go map keyed by `key` from a slice, one assignment per
element (`for _, x := range l { m[key(x)] = x }`). -/
def mapBuild {α : Type} (key : α → String) (l : List α) : List (String × α) :=
  l.foldl (fun m a => mapInsert m (key a) a) []

/-- `columnsAreDifferent`: compare type, nullability, extra text, default
presence/value and on-update presence/value — not the name (equal by
lookup) and not `ColumnKey`. -/
def columnsAreDifferent (source target : ColumnModel) : Bool :=
  if source.DataType ≠ target.DataType ∨ source.IsNullable ≠ target.IsNullable
      ∨ source.Extra ≠ target.Extra then true
  else if source.DefaultValue.isSome ≠ target.DefaultValue.isSome then true
  else if source.DefaultValue.isSome ∧ target.DefaultValue.isSome
      ∧ source.DefaultValue ≠ target.DefaultValue then true
  else if source.OnUpdate.isSome ≠ target.OnUpdate.isSome then true
  else if source.OnUpdate.isSome ∧ target.OnUpdate.isSome
      ∧ source.OnUpdate ≠ target.OnUpdate then true
  else false

/-- `indexesAreDifferent`: uniqueness, method, column count, then a
positional scan of the column sequences (order matters). -/
def indexesAreDifferent (source target : IndexModel) : Bool :=
  if source.NonUnique ≠ target.NonUnique ∨ source.IndexType ≠ target.IndexType then
    true
  else if source.Columns.length ≠ target.Columns.length then true
  else (source.Columns.zip target.Columns).any (fun p => p.1 ≠ p.2)

/-- `primaryKeysAreDifferent`: column count then a positional scan (order
matters); the key's name is not compared. -/
def primaryKeysAreDifferent (source target : PrimaryKeyModel) : Bool :=
  if source.Columns.length ≠ target.Columns.length then true
  else (source.Columns.zip target.Columns).any (fun p => p.1 ≠ p.2)

/-- `generateAddColumnSQL`: the rendered parts joined by single spaces. -/
def generateAddColumnSQL (tableName : String) (column : ColumnModel) : String :=
  let parts := ["ALTER TABLE `" ++ tableName ++ "` ADD COLUMN `"
    ++ column.Name ++ "` " ++ column.DataType]
  let parts := if column.IsNullable = "NO" then parts ++ ["NOT NULL"] else parts
  let parts := match column.DefaultValue with
    | some d =>
      if d = "CURRENT_TIMESTAMP" then parts ++ ["DEFAULT CURRENT_TIMESTAMP"]
      else parts ++ ["DEFAULT '" ++ d ++ "'"]
    | none => parts
  let parts := match column.OnUpdate with
    | some u =>
      if u = "CURRENT_TIMESTAMP" then parts ++ ["ON UPDATE CURRENT_TIMESTAMP"]
      else parts
    | none => parts
  let parts := if strContains column.Extra "auto_increment" then
      parts ++ ["AUTO_INCREMENT"]
    else parts
  String.intercalate " " parts

/-- `generateModifyColumnSQL`: identical to the add renderer except for
the `MODIFY COLUMN` verb. -/
def generateModifyColumnSQL (tableName : String) (column : ColumnModel) : String :=
  let parts := ["ALTER TABLE `" ++ tableName ++ "` MODIFY COLUMN `"
    ++ column.Name ++ "` " ++ column.DataType]
  let parts := if column.IsNullable = "NO" then parts ++ ["NOT NULL"] else parts
  let parts := match column.DefaultValue with
    | some d =>
      if d = "CURRENT_TIMESTAMP" then parts ++ ["DEFAULT CURRENT_TIMESTAMP"]
      else parts ++ ["DEFAULT '" ++ d ++ "'"]
    | none => parts
  let parts := match column.OnUpdate with
    | some u =>
      if u = "CURRENT_TIMESTAMP" then parts ++ ["ON UPDATE CURRENT_TIMESTAMP"]
      else parts
    | none => parts
  let parts := if strContains column.Extra "auto_increment" then
      parts ++ ["AUTO_INCREMENT"]
    else parts
  String.intercalate " " parts

/-- `generateAddIndexSQL`. -/
def generateAddIndexSQL (tableName : String) (index : IndexModel) : String :=
  let indexType := if index.NonUnique = 0 then "UNIQUE" else "INDEX"
  let columns := index.Columns.map (fun col => "`" ++ col ++ "`")
  "CREATE " ++ indexType ++ " INDEX `" ++ index.Name ++ "` ON `" ++ tableName
    ++ "` (" ++ String.intercalate ", " columns ++ ") USING " ++ index.IndexType

/-- `generateAddPrimaryKeySQL`. -/
def generateAddPrimaryKeySQL (tableName : String) (pk : PrimaryKeyModel) : String :=
  let columns := pk.Columns.map (fun col => "`" ++ col ++ "`")
  "ALTER TABLE `" ++ tableName ++ "` ADD PRIMARY KEY ("
    ++ String.intercalate ", " columns ++ ")"

/-- The `DROP INDEX` statement shared by both drop sites of
`compareIndexes`. -/
def dropIndexSQL (tableName name : String) : String :=
  "DROP INDEX `" ++ name ++ "` ON `" ++ tableName ++ "`"

/-- Body of the first `range` loop of `compareColumns`, for one source map
entry: `AddColumn` when the name is absent from the target map. -/
def colAddDiff (sourceName : String) (targetColumns : List (String × ColumnModel))
    (p : String × ColumnModel) : Option Difference :=
  if (mapGet targetColumns p.1).isSome then none
  else some { dtype := AddColumn, Name := p.1
              Description := "Add column '" ++ p.1 ++ "'"
              SQL := generateAddColumnSQL sourceName p.2 }

/-- Body of the second `range` loop of `compareColumns`, for one target
map entry: `ModifyColumn` (rendered from the source definition) when the
name is on both sides with differing definitions, `DropColumn` when it is
absent from the source map. -/
def colModDropDiff (sourceName : String)
    (sourceColumns : List (String × ColumnModel)) (p : String × ColumnModel) :
    Option Difference :=
  match mapGet sourceColumns p.1 with
  | some sourceCol =>
    if columnsAreDifferent sourceCol p.2 then
      some { dtype := ModifyColumn, Name := p.1
             Description := "Modify column '" ++ p.1 ++ "'"
             SQL := generateModifyColumnSQL sourceName sourceCol }
    else none
  | none =>
    some { dtype := DropColumn, Name := p.1
           Description := "Drop column '" ++ p.1 ++ "'"
           SQL := "ALTER TABLE `" ++ sourceName ++ "` DROP COLUMN `" ++ p.1 ++ "`" }

/-- `compareColumns`: over the source map, emit `AddColumn` for names
absent from the target; over the target map, emit `ModifyColumn` (rendered
from the source definition) for names present on both sides with differing
definitions and `DropColumn` for names absent from the source.  The two Go
`range` loops run in the maps' unspecified order; the embedding iterates
each map in insertion order, one admissible linearization. -/
def compareColumns (source target : TableModel) : List Difference :=
  let sourceColumns := mapBuild ColumnModel.Name source.Columns
  let targetColumns := mapBuild ColumnModel.Name target.Columns
  sourceColumns.filterMap (colAddDiff source.Name targetColumns)
  ++ targetColumns.filterMap (colModDropDiff source.Name sourceColumns)

/-- Body of the first `range` loop of `compareIndexes`, for one source map
entry: `AddIndex` when the name is absent from the target, a `DropIndex` +
`AddIndex` (recreate) pair when the definitions differ, nothing when they
agree. -/
def indexChunk (sourceName : String) (targetIndexes : List (String × IndexModel))
    (p : String × IndexModel) : List Difference :=
  match mapGet targetIndexes p.1 with
  | none =>
    [{ dtype := AddIndex, Name := p.1
       Description := "Add index '" ++ p.1 ++ "'"
       SQL := generateAddIndexSQL sourceName p.2 }]
  | some targetIdx =>
    if indexesAreDifferent p.2 targetIdx then
      [{ dtype := DropIndex, Name := p.1
         Description := "Drop index '" ++ p.1 ++ "'"
         SQL := dropIndexSQL sourceName p.1 },
       { dtype := AddIndex, Name := p.1
         Description := "Recreate index '" ++ p.1 ++ "'"
         SQL := generateAddIndexSQL sourceName p.2 }]
    else []

/-- Body of the second `range` loop of `compareIndexes`, for one target
map entry: a `DropIndex` when the name is absent from the source map. -/
def idxDropDiff (sourceName : String)
    (sourceIndexes : List (String × IndexModel))
    (p : String × IndexModel) : Option Difference :=
  if (mapGet sourceIndexes p.1).isSome then none
  else some { dtype := DropIndex, Name := p.1
              Description := "Drop index '" ++ p.1 ++ "'"
              SQL := dropIndexSQL sourceName p.1 }

/-- `compareIndexes`: over the source map, emit `AddIndex` for names
absent from the target and a `DropIndex` + `AddIndex` (recreate) pair for
names on both sides whose definitions differ; over the target map, emit
`DropIndex` for names absent from the source. -/
def compareIndexes (source target : TableModel) : List Difference :=
  let sourceIndexes := mapBuild IndexModel.Name source.Indexes
  let targetIndexes := mapBuild IndexModel.Name target.Indexes
  (sourceIndexes.flatMap (indexChunk source.Name targetIndexes))
  ++ targetIndexes.filterMap (idxDropDiff source.Name sourceIndexes)

/-- `comparePrimaryKeys`: the four presence cases; a differing key is
materialized as drop followed by add, rendered from the source key. -/
def comparePrimaryKeys (source target : TableModel) : List Difference :=
  match source.PrimaryKey, target.PrimaryKey with
  | none, none => []
  | none, some _ =>
    [{ dtype := DropPrimaryKey, Name := "PRIMARY"
       Description := "Drop primary key"
       SQL := "ALTER TABLE `" ++ source.Name ++ "` DROP PRIMARY KEY" }]
  | some sp, none =>
    [{ dtype := AddPrimaryKey, Name := "PRIMARY"
       Description := "Add primary key"
       SQL := generateAddPrimaryKeySQL source.Name sp }]
  | some sp, some tp =>
    if primaryKeysAreDifferent sp tp then
      [{ dtype := DropPrimaryKey, Name := "PRIMARY"
         Description := "Drop existing primary key"
         SQL := "ALTER TABLE `" ++ source.Name ++ "` DROP PRIMARY KEY" },
       { dtype := AddPrimaryKey, Name := "PRIMARY"
         Description := "Add new primary key"
         SQL := generateAddPrimaryKeySQL source.Name sp }]
    else []

/-- `Compare` on two fetched table structures: a pending plan whose
differences are the column, index and primary-key differences in that
order. -/
def Compare (source target : TableModel) : SyncPlan :=
  { TableName := source.Name
    Differences := compareColumns source target ++ compareIndexes source target
      ++ comparePrimaryKeys source target
    Status := "pending" }


/-- First column of the given name in a snapshot (with distinct column
names this is the Go map view of the column list). -/
def colByName (cols : List ColumnModel) (n : String) : Option ColumnModel :=
  cols.find? (fun c => c.Name = n)

/-- First index of the given name in a snapshot. -/
def idxByName (idxs : List IndexModel) (n : String) : Option IndexModel :=
  idxs.find? (fun i => i.Name = n)

/-- Equality of column definitions up to the `ColumnKey` tag (the one
catalog field `columnsAreDifferent` never compares, so a modify is never
emitted for it and the target may legitimately keep its own value). -/
def eqNoKey (a b : ColumnModel) : Prop :=
  a.Name = b.Name ∧ a.DataType = b.DataType ∧ a.IsNullable = b.IsNullable
    ∧ a.DefaultValue = b.DefaultValue ∧ a.Extra = b.Extra ∧ a.OnUpdate = b.OnUpdate

instance (a b : ColumnModel) : Decidable (eqNoKey a b) := by
  unfold eqNoKey; infer_instance

/-- `eqNoKey` lifted to optional columns. -/
def optEqNoKey : Option ColumnModel → Option ColumnModel → Prop
  | none, none => True
  | some a, some b => eqNoKey a b
  | _, _ => False

instance (a b : Option ColumnModel) : Decidable (optEqNoKey a b) := by
  cases a <;> cases b <;> unfold optEqNoKey <;> infer_instance

/-- Effect of executing one emitted DDL statement against the target and
re-reading the snapshot.  The statements are rendered by deterministic
templates from the source-side object of the difference's name, so the
semantic effect of each is: add appends the source object, modify replaces
the like-named object with the source one, drop removes the like-named
object; primary-key statements install the source key or clear it.
Statements whose object no longer resolves leave the snapshot unchanged. -/
def applyDifference (source t : TableModel) (d : Difference) : TableModel :=
  if d.dtype = AddColumn then
    match mapGet (mapBuild ColumnModel.Name source.Columns) d.Name with
    | some sc => { t with Columns := t.Columns ++ [sc] }
    | none => t
  else if d.dtype = ModifyColumn then
    match mapGet (mapBuild ColumnModel.Name source.Columns) d.Name with
    | some sc =>
      { t with Columns := t.Columns.map (fun c => if c.Name = d.Name then sc else c) }
    | none => t
  else if d.dtype = DropColumn then
    { t with Columns := t.Columns.filter (fun c => c.Name ≠ d.Name) }
  else if d.dtype = AddIndex then
    match mapGet (mapBuild IndexModel.Name source.Indexes) d.Name with
    | some si => { t with Indexes := t.Indexes ++ [si] }
    | none => t
  else if d.dtype = DropIndex then
    { t with Indexes := t.Indexes.filter (fun i => i.Name ≠ d.Name) }
  else if d.dtype = AddPrimaryKey then { t with PrimaryKey := source.PrimaryKey }
  else if d.dtype = DropPrimaryKey then { t with PrimaryKey := none }
  else t

/-- Execute an emitted difference list in order against a snapshot. -/
def applyPlan (source t : TableModel) (ds : List Difference) : TableModel :=
  ds.foldl (applyDifference source) t


/-- Per-target-column effect of the modify/drop loop of `compareColumns`
(used to state the closed form of plan application): a column present on
both sides is replaced by the source definition when they differ and kept
otherwise; a target-only column is dropped. -/
def colStep (sourceColumns : List (String × ColumnModel)) (tc : ColumnModel) :
    Option ColumnModel :=
  match mapGet sourceColumns tc.Name with
  | some sourceCol => some (if columnsAreDifferent sourceCol tc then sourceCol else tc)
  | none => none

/-- Per-source-column effect of the add loop of `compareColumns`: a
source-only column is appended to the target. -/
def colAdd (targetColumns : List (String × ColumnModel)) (c : ColumnModel) :
    Option ColumnModel :=
  if (mapGet targetColumns c.Name).isSome then none else some c

/-- Whether one source-entry chunk of `compareIndexes` drops the
like-named target index (recreate case). -/
def chunkDrops (targetIndexes : List (String × IndexModel))
    (p : String × IndexModel) : Bool :=
  match mapGet targetIndexes p.1 with
  | some targetIdx => indexesAreDifferent p.2 targetIdx
  | none => false

/-- The index a source-entry chunk of `compareIndexes` appends to the
target (absent or recreated), if any. -/
def chunkAdd (targetIndexes : List (String × IndexModel))
    (p : String × IndexModel) : Option IndexModel :=
  match mapGet targetIndexes p.1 with
  | none => some p.2
  | some targetIdx => if indexesAreDifferent p.2 targetIdx then some p.2 else none

/-- Whether an index survives the recreate drops emitted by the first
`compareIndexes` loop for the listed source entries: no listed entry's
chunk drops its name. -/
def idxKept (targetIndexes : List (String × IndexModel))
    (l : List (String × IndexModel)) (i : IndexModel) : Bool :=
  !(l.any (fun p => chunkDrops targetIndexes p && decide (p.1 = i.Name)))

/-- Whether an index survives the target-only drops emitted by the second
`compareIndexes` loop for the listed target entries: no listed entry of
its name is absent from the source map. -/
def idxKept2 (sourceIndexes : List (String × IndexModel))
    (l : List (String × IndexModel)) (i : IndexModel) : Bool :=
  !(l.any (fun p => !(mapGet sourceIndexes p.1).isSome && decide (p.1 = i.Name)))

/-- `chunkAdd` read off the index itself (under distinct names the source
map's entry for `a.Name` is `(a.Name, a)`). -/
def chunkAddM (targetIndexes : List (String × IndexModel))
    (a : IndexModel) : Option IndexModel :=
  chunkAdd targetIndexes (a.Name, a)

/-- A two-column source snapshot over `int` columns `a` then `b`. -/
def rtSource : TableModel :=
  { Name := "t"
    Columns := [{ Name := "a", DataType := "int", IsNullable := "YES",
                  ColumnKey := "", DefaultValue := none, Extra := "",
                  OnUpdate := none },
                { Name := "b", DataType := "int", IsNullable := "YES",
                  ColumnKey := "", DefaultValue := none, Extra := "",
                  OnUpdate := none }]
    Indexes := []
    PrimaryKey := none }

/-- A target snapshot holding only the `b` column of `rtSource`. -/
def rtTarget : TableModel :=
  { Name := "t"
    Columns := [{ Name := "b", DataType := "int", IsNullable := "YES",
                  ColumnKey := "", DefaultValue := none, Extra := "",
                  OnUpdate := none }]
    Indexes := []
    PrimaryKey := none }

end Comparer

open Service
open Comparer

/-- C1.  The claim says a page that fails on an early attempt but whose
later attempt (within the three) applies every record without error makes
`syncBatchData` return success, with inter-attempt delays
`min(100ms * 2^attempt, 2s)`.  The code contradicts this: `lastErr` is set
on the first failure and never cleared, so the success check
`lastErr == nil` can never pass again.  Here one record fails on attempts
0 and 1 and succeeds on attempt 2 (third attempt: `firstFailureIdx ... 2 =
none`, the whole page applies cleanly), the observed delays are exactly
`[100, 200]` ms as the backoff formula dictates, yet the function returns
failure. -/
theorem syncBatchData_successful_retry_still_fails :
    syncBatchData 1 (fun attempt _ => decide (2 ≤ attempt)) = (false, [100, 200])
    ∧ firstFailureIdx (fun attempt _ => decide (2 ≤ attempt)) 1 2 = none
    ∧ [100, 200] = [retryDelayMs 0, retryDelayMs 1] := by
  refine ⟨?_, ?_, ?_⟩ <;> decide

/-- Every page of the incremental `"update_time"` loop produces one record
slice, and the target state seen at the start of each page is tracked by
`pageStates`. -/
theorem pageLoop_length (syncMode checkMethod updateField : String)
    (source : List Row) (batch : Nat) :
    ∀ (pages : List Nat) (t : List Row),
      ((pageLoop syncMode checkMethod updateField source batch pages t).1).length
          = pages.length
      ∧ (pageStates syncMode checkMethod updateField source batch pages t).length
          = pages.length := by
  intro pages
  induction pages with
  | nil => intro t; exact ⟨rfl, rfl⟩
  | cons p ps ih =>
    intro t
    refine ⟨?_, ?_⟩ <;> simp [pageLoop, pageStates, (ih _).1, (ih _).2]

/-- C2 counterexample.  Source rows `(id 1, ts 10)` and `(id 2, ts 5)`,
batch size 1, empty target, incremental `"update_time"` mode: the run has
two pages.  Page 0 sees floor `0` (empty target) and upserts the row with
timestamp 10; page 1 recomputes the floor from the now-nonempty target and
gets `10`, so it reads nothing — whereas filtering against the single
pre-loop floor `0` would have read the row with timestamp 5.  The floor is
therefore not computed once before the page loop. -/
theorem pageLoop_single_floor_counterexample :
    (pageLoop "incremental" "update_time" "updated_at"
        [⟨1, 10⟩, ⟨2, 5⟩] 1 (List.range (totalPages 2 1)) []).1
      = [[⟨1, 10⟩], []]
    ∧ incrPageRecords [⟨1, 10⟩, ⟨2, 5⟩] (targetMaxTs []) 1 1 = [⟨2, 5⟩]
    ∧ targetMaxTs (upsertAll [] [⟨1, 10⟩]) = 10
    ∧ targetMaxTs ([] : List Row) = 0
    ∧ ([[⟨1, 10⟩], []] : List (List Row)) ≠ [[⟨1, 10⟩], [⟨2, 5⟩]] := by
  refine ⟨?_, ?_, ?_, ?_, ?_⟩ <;> decide

/-- C2 amended.  In incremental mode with the `update_time` strategy, the
floor is recomputed inside the page loop: page `k` queries the target's
maximum timestamp against the target state produced by the pages before it
(`pageStates`), and filters the source against that per-page floor — not
against a single value computed once before the loop. -/
theorem pageLoop_incremental_refloors_each_page (updateField : String)
    (hf : updateField ≠ "") (source : List Row) (batch : Nat)
    (pages : List Nat) (t : List Row) (k : Nat) (hk : k < pages.length) :
    ((pageLoop "incremental" "update_time" updateField source batch pages t).1).get? k
      = some (incrPageRecords source
          (targetMaxTs
            ((pageStates "incremental" "update_time" updateField source batch pages t).getD k []))
          (pages.getD k 0) batch) := by
  induction pages generalizing t k with
  | nil => exact absurd hk (by simp)
  | cons p ps ih =>
    have hrecs : pageRecords "incremental" "update_time" updateField source t p batch
        = incrPageRecords source (targetMaxTs t) p batch := by
      rw [pageRecords, if_neg (by decide), if_pos ⟨rfl, hf⟩]
    cases k with
    | zero => simp [pageLoop, pageStates, hrecs]
    | succ k =>
      have hk' : k < ps.length := by simpa using hk
      simp only [pageLoop, pageStates, List.get?_cons_succ, List.getD_cons_succ]
      rw [hrecs]
      exact ih _ _ hk'

/-- Witness for `pageLoop_incremental_refloors_each_page` at a concrete
one-page run. -/
theorem pageLoop_incremental_refloors_each_page_witness :
    ("u" : String) ≠ "" ∧ (0 : Nat) < ([0] : List Nat).length
    ∧ ((pageLoop "incremental" "update_time" "u" [⟨1, 10⟩] 1 [0] []).1).get? 0
      = some (incrPageRecords [⟨1, 10⟩]
          (targetMaxTs ((pageStates "incremental" "update_time" "u" [⟨1, 10⟩] 1 [0] []).getD 0 []))
          (([0] : List Nat).getD 0 0) 1) :=
  ⟨by decide, by decide,
    pageLoop_incremental_refloors_each_page "u" (by decide) [⟨1, 10⟩] 1 [0] [] 0 (by decide)⟩

/-- Ceiling division as computed by `syncTable` agrees with
`(n - 1) / b + 1` for a nonempty source. -/
theorem totalPages_pos_eq (n b : Nat) (hb : 0 < b) (hn : 0 < n) :
    totalPages n b = (n - 1) / b + 1 := by
  unfold totalPages
  have h : n + b - 1 = (n - 1) + b := by omega
  rw [h, Nat.add_div_right _ hb]

/-- An empty source produces zero pages. -/
theorem totalPages_zero (b : Nat) (hb : 0 < b) : totalPages 0 b = 0 := by
  unfold totalPages
  exact Nat.div_eq_of_lt (by omega)

/-- C7.  With batch size `B > 0` the full-mode run issues exactly
`ceil(N / B)` pages (`totalPages` is the least multiple bound: `N ≤
pages*B < N + B`), page `p` reads at most `B` rows at offset `p*B`, and
with `N = 0` no page is issued, cleanup still runs and the task finishes
with status `"completed"` and no error. -/
theorem syncTableFull_pages_ceil {α : Type} (source : List α) (batch : Nat)
    (hb : 0 < batch) :
    (syncTableFull source batch).pages.length = totalPages source.length batch
    ∧ source.length ≤ totalPages source.length batch * batch
    ∧ totalPages source.length batch * batch < source.length + batch
    ∧ (∀ p, p < totalPages source.length batch →
        (syncTableFull source batch).pages.get? p
          = some ((source.drop (p * batch)).take batch))
    ∧ (∀ pg ∈ (syncTableFull source batch).pages, pg.length ≤ batch)
    ∧ (source.length = 0 →
        (syncTableFull source batch).pages = []
        ∧ (syncTableFull source batch).status = "completed"
        ∧ (syncTableFull source batch).cleanupRan = true) := by
  set n := source.length with hn
  refine ⟨by simp [syncTableFull], ?_, ?_, ?_, ?_, ?_⟩
  · rcases Nat.eq_zero_or_pos n with h0 | hpos
    · simp [h0, totalPages_zero batch hb]
    · rw [totalPages_pos_eq n batch hb hpos]
      have hlt : (n - 1) / batch < (n - 1) / batch + 1 := Nat.lt_succ_self _
      have := (Nat.div_lt_iff_lt_mul hb).mp hlt
      omega
  · rcases Nat.eq_zero_or_pos n with h0 | hpos
    · simp [h0, totalPages_zero batch hb]; omega
    · rw [totalPages_pos_eq n batch hb hpos]
      have h1 : (n - 1) / batch * batch ≤ n - 1 := Nat.div_mul_le_self _ _
      have h2 : ((n - 1) / batch + 1) * batch = (n - 1) / batch * batch + batch :=
        Nat.succ_mul _ _
      omega
  · intro p hp
    simp only [syncTableFull, List.get?_map]
    rw [List.get?_range (by simpa using hp)]
    rfl
  · intro pg hpg
    simp only [syncTableFull, List.mem_map] at hpg
    obtain ⟨p, _, hpg⟩ := hpg
    rw [← hpg]
    exact List.length_take_le _ _
  · intro h0
    refine ⟨?_, rfl, rfl⟩
    simp [syncTableFull, ← hn, h0, totalPages_zero batch hb]

/-- Witness for `syncTableFull_pages_ceil`: three rows, batch size two. -/
theorem syncTableFull_pages_ceil_witness :
    (0 : Nat) < 2
    ∧ ((syncTableFull [10, 20, 30] 2).pages.length = totalPages 3 2
      ∧ 3 ≤ totalPages 3 2 * 2
      ∧ totalPages 3 2 * 2 < 3 + 2
      ∧ (∀ p, p < totalPages 3 2 →
          (syncTableFull [10, 20, 30] 2).pages.get? p
            = some ((([10, 20, 30] : List Nat).drop (p * 2)).take 2))
      ∧ (∀ pg ∈ (syncTableFull ([10, 20, 30] : List Nat) 2).pages, pg.length ≤ 2)
      ∧ (([10, 20, 30] : List Nat).length = 0 →
          (syncTableFull ([10, 20, 30] : List Nat) 2).pages = []
          ∧ (syncTableFull ([10, 20, 30] : List Nat) 2).status = "completed"
          ∧ (syncTableFull ([10, 20, 30] : List Nat) 2).cleanupRan = true)) :=
  ⟨by decide, syncTableFull_pages_ceil [10, 20, 30] 2 (by decide)⟩

/-- In incremental mode, a pair whose check method is not `"update_time"`
(or whose update field is empty) gets an empty record slice on every page:
no branch of the page body fills `sourceRecords`. -/
theorem pageRecords_incremental_empty (checkMethod updateField : String)
    (h : checkMethod ≠ "update_time" ∨ updateField = "")
    (source t : List Row) (p b : Nat) :
    pageRecords "incremental" checkMethod updateField source t p b = [] := by
  have h2 : ¬(checkMethod = "update_time" ∧ updateField ≠ "") := by
    rcases h with h | h
    · exact fun hc => h hc.1
    · exact fun hc => hc.2 h
  rw [pageRecords, if_neg (by decide), if_neg h2]

/-- The incremental page loop without a usable `update_time`
configuration never changes the target. -/
theorem pageLoop_incremental_inert (checkMethod updateField : String)
    (h : checkMethod ≠ "update_time" ∨ updateField = "")
    (source : List Row) (batch : Nat) :
    ∀ (pages : List Nat) (t : List Row),
      pageLoop "incremental" checkMethod updateField source batch pages t
        = (List.replicate pages.length [], t) := by
  intro pages
  induction pages with
  | nil => intro t; rfl
  | cons p ps ih =>
    intro t
    simp [pageLoop, pageRecords_incremental_empty checkMethod updateField h, ih,
      upsertAll, List.replicate_succ]

/-- C10.  In incremental mode with a check method other than
`"update_time"` (or an empty update field), every page's source-record
slice is empty, the replication phase leaves the target untouched, drift
cleanup still runs on the unchanged target, and the final target is a
sublist of the initial one — the pass can delete rows but never adds one. -/
theorem incremental_non_update_time_only_deletes (checkMethod updateField : String)
    (source : List Row) (batch : Nat) (target : List Row)
    (h : checkMethod ≠ "update_time" ∨ updateField = "") :
    (∀ r ∈ (syncTableDataRun "incremental" checkMethod updateField source batch target).1,
        r = [])
    ∧ (pageLoop "incremental" checkMethod updateField source batch
        (List.range (totalPages source.length batch)) target).2 = target
    ∧ (syncTableDataRun "incremental" checkMethod updateField source batch target).2
        = cleanupTargetTable source target
    ∧ (syncTableDataRun "incremental" checkMethod updateField source batch target).2.Sublist
        target := by
  have hloop := pageLoop_incremental_inert checkMethod updateField h source batch
    (List.range (totalPages source.length batch)) target
  refine ⟨?_, ?_, ?_, ?_⟩
  · intro r hr
    simp only [syncTableDataRun, hloop] at hr
    exact List.eq_of_mem_replicate hr
  · rw [hloop]
  · simp [syncTableDataRun, hloop]
  · simp only [syncTableDataRun, hloop]
    unfold cleanupTargetTable
    by_cases hz : target.length = 0
    · simp [hz]
    · simp only [hz, if_neg hz]
      exact List.filter_sublist _

/-- Witness for `incremental_non_update_time_only_deletes`: check method
`"count"`, a target with one extra row; the run reads nothing and cleanup
deletes exactly the extra row. -/
theorem incremental_non_update_time_only_deletes_witness :
    (("count" : String) ≠ "update_time" ∨ ("" : String) = "")
    ∧ ((∀ r ∈ (syncTableDataRun "incremental" "count" "" [⟨3, 1⟩] 1
          [⟨3, 1⟩, ⟨4, 2⟩]).1, r = [])
      ∧ (pageLoop "incremental" "count" "" [⟨3, 1⟩] 1
          (List.range (totalPages 1 1)) [⟨3, 1⟩, ⟨4, 2⟩]).2 = [⟨3, 1⟩, ⟨4, 2⟩]
      ∧ (syncTableDataRun "incremental" "count" "" [⟨3, 1⟩] 1 [⟨3, 1⟩, ⟨4, 2⟩]).2
          = cleanupTargetTable [⟨3, 1⟩] [⟨3, 1⟩, ⟨4, 2⟩]
      ∧ (syncTableDataRun "incremental" "count" "" [⟨3, 1⟩] 1
          [⟨3, 1⟩, ⟨4, 2⟩]).2.Sublist [⟨3, 1⟩, ⟨4, 2⟩])
    ∧ (syncTableDataRun "incremental" "count" "" [⟨3, 1⟩] 1 [⟨3, 1⟩, ⟨4, 2⟩]).2
        = [⟨3, 1⟩] :=
  ⟨Or.inl (by decide),
    incremental_non_update_time_only_deletes "count" "" [⟨3, 1⟩] 1 [⟨3, 1⟩, ⟨4, 2⟩]
      (Or.inl (by decide)),
    by decide⟩

/-- Overwriting assignment leaves the key list unchanged when the key is
present and appends it otherwise. -/
theorem mapInsert_keys {α : Type} (m : List (String × α)) (k : String) (v : α) :
    (mapInsert m k v).map Prod.fst
      = if m.any (fun p => p.1 = k) then m.map Prod.fst
        else m.map Prod.fst ++ [k] := by
  unfold mapInsert
  by_cases h : m.any (fun p => p.1 = k)
  · rw [if_pos h, if_pos h, List.map_map]
    apply List.map_congr_left
    intro p _
    by_cases hp : p.1 = k
    · simp [hp]
    · simp [hp]
  · rw [if_neg h, if_neg h]
    simp

/-- Go map assignment preserves distinctness of the key list. -/
theorem mapInsert_keys_nodup {α : Type} (m : List (String × α)) (k : String) (v : α)
    (h : (m.map Prod.fst).Nodup) : ((mapInsert m k v).map Prod.fst).Nodup := by
  rw [mapInsert_keys]
  by_cases hc : m.any (fun p => p.1 = k)
  · rwa [if_pos hc]
  · rw [if_neg hc]
    have hk : k ∉ m.map Prod.fst := by
      intro hmem
      rcases List.mem_map.mp hmem with ⟨p, hp, hpk⟩
      exact hc (List.any_eq_true.mpr ⟨p, hp, by simp [hpk]⟩)
    simp [List.nodup_append, h, hk]

/-- A map built from a slice has distinct keys. -/
theorem mapBuild_keys_nodup {α : Type} (key : α → String) (l : List α) :
    ((mapBuild key l).map Prod.fst).Nodup := by
  suffices h : ∀ (m : List (String × α)), (m.map Prod.fst).Nodup →
      ((l.foldl (fun m a => mapInsert m (key a) a) m).map Prod.fst).Nodup by
    exact h [] (by simp)
  induction l with
  | nil => intro m hm; exact hm
  | cons a l ih =>
    intro m hm
    exact ih _ (mapInsert_keys_nodup m (key a) a hm)

/-- In an association list with distinct keys, the entry found for a
member's key is that member. -/
theorem find?_eq_of_mem_nodup_keys {α : Type} (m : List (String × α))
    (h : (m.map Prod.fst).Nodup) (p : String × α) (hp : p ∈ m) :
    m.find? (fun q => q.1 = p.1) = some p := by
  induction m with
  | nil => cases hp
  | cons q m ih =>
    rcases List.mem_cons.mp hp with hq | hm
    · subst hq
      simp [List.find?]
    · have hq1 : ¬(q.1 = p.1) := by
        intro he
        have : p.1 ∈ m.map Prod.fst := List.mem_map.mpr ⟨p, hm, rfl⟩
        rw [← he] at this
        exact (List.nodup_cons.mp h).1 this
      have ih' := ih (List.nodup_cons.mp h).2 hm
      simp [List.find?, hq1, ih']

/-- Go map lookup of a member's key in a distinct-keyed map yields that
member's value. -/
theorem mapGet_of_mem {α : Type} (m : List (String × α))
    (h : (m.map Prod.fst).Nodup) (p : String × α) (hp : p ∈ m) :
    mapGet m p.1 = some p.2 := by
  unfold mapGet
  rw [find?_eq_of_mem_nodup_keys m h p hp]
  rfl

/-- A column never differs from itself. -/
theorem columnsAreDifferent_self (c : ColumnModel) :
    columnsAreDifferent c c = false := by
  unfold columnsAreDifferent
  simp

/-- A pair drawn from a list zipped with itself has equal components. -/
theorem mem_zip_self_eq (l : List String) :
    ∀ a b, (a, b) ∈ l.zip l → a = b := by
  induction l with
  | nil => simp
  | cons x l ih =>
    intro a b h
    rw [List.zip_cons_cons, List.mem_cons] at h
    rcases h with h | h
    · rw [Prod.mk.injEq] at h
      rw [h.1, h.2]
    · exact ih a b h

/-- The positional scan of a list zipped with itself finds no mismatch. -/
theorem zip_self_any_ne (l : List String) :
    (l.zip l).any (fun p => decide (p.1 ≠ p.2)) = false := by
  rw [List.any_eq_false]
  rintro ⟨a, b⟩ hp
  simp [mem_zip_self_eq l a b hp]

/-- An index never differs from itself. -/
theorem indexesAreDifferent_self (i : IndexModel) :
    indexesAreDifferent i i = false := by
  unfold indexesAreDifferent
  simp
  exact mem_zip_self_eq _

/-- A primary key never differs from itself. -/
theorem primaryKeysAreDifferent_self (p : PrimaryKeyModel) :
    primaryKeysAreDifferent p p = false := by
  unfold primaryKeysAreDifferent
  simp
  exact mem_zip_self_eq _

/-- C9.  Diffing a snapshot against itself emits no difference: every
column of the (identical) source map is found in the target map, no
definition differs from itself, the same holds for indexes, and the
primary keys are equal in both presence and column order. -/
theorem compare_self_is_empty (S : TableModel) : (Compare S S).Differences = [] := by
  unfold Compare
  simp only
  have hcols : compareColumns S S = [] := by
    unfold compareColumns
    simp only
    rw [List.append_eq_nil]
    constructor
    · rw [List.filterMap_eq_nil]
      intro p hp
      unfold colAddDiff
      rw [mapGet_of_mem _ (mapBuild_keys_nodup _ _) p hp]
      rfl
    · rw [List.filterMap_eq_nil]
      intro p hp
      unfold colModDropDiff
      rw [mapGet_of_mem _ (mapBuild_keys_nodup _ _) p hp]
      simp [columnsAreDifferent_self]
  have hidx : compareIndexes S S = [] := by
    unfold compareIndexes
    simp only
    rw [List.append_eq_nil]
    constructor
    · rw [List.flatMap_eq_nil_iff]
      intro p hp
      unfold indexChunk
      rw [mapGet_of_mem _ (mapBuild_keys_nodup _ _) p hp]
      simp [indexesAreDifferent_self]
    · rw [List.filterMap_eq_nil]
      intro p hp
      unfold idxDropDiff
      rw [mapGet_of_mem _ (mapBuild_keys_nodup _ _) p hp]
      rfl
  have hpk : comparePrimaryKeys S S = [] := by
    unfold comparePrimaryKeys
    cases h : S.PrimaryKey with
    | none => rfl
    | some p => simp [primaryKeysAreDifferent_self]
  rw [hcols, hidx, hpk]
  rfl

/-- C3 counterexample.  A catalog reporting zero columns for a table does
not make `getTableStructure` fail: the function returns a successful
snapshot with an empty column list (its only error paths are query/scan
failures), refuting the claim that it errors whenever the catalog reports
zero columns. -/
theorem getTableStructure_zero_columns_succeeds :
    getTableStructureE "missing" [] [] []
      = Except.ok { Name := "missing", Columns := [], Indexes := [],
                    PrimaryKey := none }
    ∧ (getTableStructureE "missing" [] [] []).isOk = true := by
  exact ⟨rfl, rfl⟩

/-- C3 amended.  The structure comparer's `getTableStructure` succeeds on
a zero-column catalog answer, returning a snapshot with no columns and no
primary key; the zero-column NotFound error exists only in the data-sync
service, whose `getAllColumns` rejects an empty column list. -/
theorem getTableStructure_empty_ok_getAllColumns_errors (name : String)
    (idxRows : List IndexRow) (mapOrder : List String) :
    (∃ t, getTableStructureE name [] idxRows mapOrder = Except.ok t
      ∧ t.Columns = [] ∧ t.PrimaryKey = none)
    ∧ getAllColumns [] = Except.error "table has no columns" :=
  ⟨⟨getTableStructure name [] idxRows mapOrder, rfl, rfl, rfl⟩, rfl⟩

/-- C6.  For an `"update_time"` pair: an empty configured field, or a
configured field that the re-queried source column list does not contain,
makes `needSync` return exactly the checksum strategy's outcome (no
"column missing" error is ever produced); an unrecognized method also
falls through to checksum; and the timestamp comparison is consulted only
when the field is re-verified to exist on the source.  The hypothesis
`cols ≠ []` reflects that `syncTable` has already aborted before `needSync`
when the same column query returns no rows. -/
theorem needSync_update_time_fallback (pair : TablePair) (cols : List String)
    (checksumResult countResult timesResult : Except String Bool)
    (hcols : cols ≠ []) :
    (pair.CheckMethod = "update_time" →
        (pair.UpdateField = "" ∨ pair.UpdateField ∉ cols) →
        needSync pair cols checksumResult countResult timesResult = checksumResult)
    ∧ (pair.CheckMethod ≠ "update_time" → pair.CheckMethod ≠ "count" →
        needSync pair cols checksumResult countResult timesResult = checksumResult)
    ∧ (pair.CheckMethod = "update_time" → pair.UpdateField ≠ "" →
        pair.UpdateField ∈ cols →
        needSync pair cols checksumResult countResult timesResult = timesResult) := by
  have hok : getAllColumns cols = Except.ok cols := by
    unfold getAllColumns
    rw [if_neg (by simpa using hcols)]
  refine ⟨?_, ?_, ?_⟩
  · intro hm hfield
    unfold needSync
    rw [if_pos hm]
    rcases hfield with hf | hf
    · rw [if_pos hf]
    · by_cases hfe : pair.UpdateField = ""
      · rw [if_pos hfe]
      · rw [if_neg hfe]
        unfold checkByUpdateTime
        rw [hok]
        simp only
        rw [if_neg (by simpa using hf)]
  · intro hm hc
    unfold needSync
    rw [if_neg hm, if_neg hc]
  · intro hm hfe hmem
    unfold needSync
    rw [if_pos hm, if_neg hfe]
    unfold checkByUpdateTime
    rw [hok]
    simp only
    rw [if_pos (by simpa using hmem)]

/-- Witness for `needSync_update_time_fallback`: an `"update_time"` pair
whose field is missing from the single-column source. -/
theorem needSync_update_time_fallback_witness :
    (["a"] : List String) ≠ []
    ∧ ((TablePair.mk "t" "t" "update_time" "u").CheckMethod = "update_time" →
        ((TablePair.mk "t" "t" "update_time" "u").UpdateField = ""
          ∨ (TablePair.mk "t" "t" "update_time" "u").UpdateField ∉ (["a"] : List String)) →
        needSync (TablePair.mk "t" "t" "update_time" "u") ["a"]
          (Except.ok true) (Except.error "count") (Except.ok false) = Except.ok true)
    ∧ needSync (TablePair.mk "t" "t" "update_time" "u") ["a"]
        (Except.ok true) (Except.error "count") (Except.ok false) = Except.ok true :=
  ⟨by decide,
    ((needSync_update_time_fallback (TablePair.mk "t" "t" "update_time" "u") ["a"]
      (Except.ok true) (Except.error "count") (Except.ok false) (by decide)).1),
    ((needSync_update_time_fallback (TablePair.mk "t" "t" "update_time" "u") ["a"]
      (Except.ok true) (Except.error "count") (Except.ok false) (by decide)).1
      rfl (Or.inr (by decide)))⟩

/-- A key is in a Go map exactly when lookup succeeds. -/
theorem any_key_iff_mapGet {α : Type} (m : List (String × α)) (k : String) :
    m.any (fun p => p.1 = k) = true ↔ (mapGet m k).isSome := by
  simp [mapGet, List.any_eq_true, List.find?_isSome]

/-- Lookup after updating the value stored at one key. -/
theorem mapGet_map_update {α : Type} (m : List (String × α)) (k : String)
    (g : α → α) (n : String) :
    mapGet (m.map (fun p => if p.1 = k then (p.1, g p.2) else p)) n
      = if n = k then (mapGet m n).map g else mapGet m n := by
  unfold mapGet
  rw [List.find?_map]
  have hcomp : ((fun p : String × α => decide (p.1 = n))
        ∘ (fun p : String × α => if p.1 = k then (p.1, g p.2) else p))
      = (fun p : String × α => decide (p.1 = n)) := by
    funext p
    by_cases hp : p.1 = k <;> simp [hp]
  rw [hcomp]
  by_cases hn : n = k
  · subst hn
    cases hf : m.find? (fun p => p.1 = n) with
    | none => simp
    | some q =>
      have hq : q.1 = n := by simpa using List.find?_some hf
      simp [hq]
  · cases hf : m.find? (fun p => p.1 = n) with
    | none => simp [hn]
    | some q =>
      have hq : q.1 = n := by simpa using List.find?_some hf
      have hqk : ¬(q.1 = k) := by rw [hq]; exact hn
      simp [hn, hqk]

/-- Lookup after one step of the index scan: the entry of the row's index
name gains the row's column (or is created with it); every other entry is
untouched. -/
theorem mapGet_addIndexRow (m : List (String × IndexModel)) (r : IndexRow)
    (n : String) :
    mapGet (addIndexRow m r) n
      = if n = r.indexName then
          match mapGet m r.indexName with
          | some i => some { Name := i.Name, Columns := i.Columns ++ [r.columnName],
                             NonUnique := i.NonUnique, IndexType := i.IndexType }
          | none => some { Name := r.indexName, Columns := [r.columnName],
                           NonUnique := r.nonUnique, IndexType := r.indexType }
        else mapGet m n := by
  unfold addIndexRow
  by_cases hany : m.any (fun p => p.1 = r.indexName)
  · rw [if_pos hany,
      mapGet_map_update m r.indexName
        (fun i => { Name := i.Name, Columns := i.Columns ++ [r.columnName]
                    NonUnique := i.NonUnique, IndexType := i.IndexType }) n]
    by_cases hn : n = r.indexName
    · rw [if_pos hn, if_pos hn, hn]
      rcases Option.isSome_iff_exists.mp ((any_key_iff_mapGet m r.indexName).mp hany)
        with ⟨i, hi⟩
      rw [hi]
      rfl
    · rw [if_neg hn, if_neg hn]
  · rw [if_neg hany]
    have hnone : m.find? (fun p => p.1 = r.indexName) = none := by
      rw [List.find?_eq_none]
      intro p hp hc
      exact hany (List.any_eq_true.mpr ⟨p, hp, hc⟩)
    by_cases hn : n = r.indexName
    · subst hn
      unfold mapGet
      rw [List.find?_append, hnone, if_pos rfl]
      simp [List.find?]
    · have hsingle : List.find? (fun p => p.1 = n)
          [(r.indexName,
            ({ Name := r.indexName, Columns := [r.columnName],
               NonUnique := r.nonUnique, IndexType := r.indexType } : IndexModel))]
          = none := by
        rw [List.find?_eq_none]
        intro p hp hc
        rw [List.mem_singleton] at hp
        rw [hp] at hc
        have hrn : r.indexName = n := by simpa using hc
        exact hn hrn.symm
      unfold mapGet
      rw [List.find?_append, hsingle, if_neg hn]
      cases m.find? (fun p => p.1 = n) <;> rfl

/-- Column sequence accumulated for one index name by the index scan: the
entry (if any) of a non-`PRIMARY` name after folding the statistics rows
holds the name's rows' columns, in row order, appended to whatever the
accumulator already held. -/
theorem buildIndexMap_go_cols (n : String) (hn : n ≠ "PRIMARY") :
    ∀ (rows : List IndexRow) (m : List (String × IndexModel)),
      (mapGet (rows.foldl
          (fun m r => if r.indexName = "PRIMARY" then m else addIndexRow m r) m) n).map
          IndexModel.Columns
        = match (mapGet m n).map IndexModel.Columns with
          | some cs =>
            some (cs ++ (rows.filter (fun r => r.indexName = n)).map IndexRow.columnName)
          | none =>
            if (rows.filter (fun r => r.indexName = n)).map IndexRow.columnName = []
            then none
            else some ((rows.filter (fun r => r.indexName = n)).map IndexRow.columnName)
  | [], m => by
    simp only [List.foldl_nil, List.filter_nil, List.map_nil]
    cases hm : mapGet m n with
    | none => simp
    | some i => simp
  | r :: rows, m => by
    rw [List.foldl_cons]
    by_cases hP : r.indexName = "PRIMARY"
    · have hrn : ¬(r.indexName = n) := fun hc => hn (hc.symm.trans hP)
      have hfil : (r :: rows).filter (fun x => x.indexName = n)
          = rows.filter (fun x => x.indexName = n) := by
        rw [List.filter_cons, if_neg (by simpa using hrn)]
      rw [if_pos hP, hfil]
      exact buildIndexMap_go_cols n hn rows m
    · rw [if_neg hP]
      by_cases hr : r.indexName = n
      · have hfil : (r :: rows).filter (fun x => x.indexName = n)
            = r :: rows.filter (fun x => x.indexName = n) := by
          rw [List.filter_cons, if_pos (by simpa using hr)]
        rw [hfil, buildIndexMap_go_cols n hn rows (addIndexRow m r), mapGet_addIndexRow,
          if_pos hr.symm, show mapGet m r.indexName = mapGet m n from by rw [hr]]
        cases hm : mapGet m n with
        | some i => simp
        | none => simp
      · have hfil : (r :: rows).filter (fun x => x.indexName = n)
            = rows.filter (fun x => x.indexName = n) := by
          rw [List.filter_cons, if_neg (by simpa using hr)]
        rw [hfil, buildIndexMap_go_cols n hn rows (addIndexRow m r), mapGet_addIndexRow,
          if_neg (fun hc => hr hc.symm)]

/-- In the grouped index map, a non-`PRIMARY` entry's column sequence is
exactly that index's catalog rows' columns in `(INDEX_NAME, SEQ_IN_INDEX)`
order. -/
theorem buildIndexMap_entry_cols (idxRows : List IndexRow) (n : String)
    (hn : n ≠ "PRIMARY") (i : IndexModel)
    (h : mapGet (buildIndexMap idxRows) n = some i) :
    i.Columns = (idxRows.filter (fun r => r.indexName = n)).map IndexRow.columnName := by
  have hgo := buildIndexMap_go_cols n hn idxRows []
  unfold buildIndexMap at h
  rw [h] at hgo
  have hgo2 : some i.Columns
      = if (idxRows.filter (fun r => r.indexName = n)).map IndexRow.columnName = []
        then none
        else some ((idxRows.filter (fun r => r.indexName = n)).map IndexRow.columnName) :=
    hgo
  by_cases he : (idxRows.filter (fun r => r.indexName = n)).map IndexRow.columnName = []
  · rw [if_pos he] at hgo2
    exact absurd hgo2 (by simp)
  · rw [if_neg he] at hgo2
    exact Option.some_injective _ hgo2

/-- One index-scan step leaves the key list unchanged for a known name and
appends a fresh name. -/
theorem addIndexRow_keys (m : List (String × IndexModel)) (r : IndexRow) :
    (addIndexRow m r).map Prod.fst
      = if m.any (fun p => p.1 = r.indexName) then m.map Prod.fst
        else m.map Prod.fst ++ [r.indexName] := by
  unfold addIndexRow
  by_cases h : m.any (fun p => p.1 = r.indexName)
  · rw [if_pos h, if_pos h, List.map_map]
    apply List.map_congr_left
    intro p _
    by_cases hp : p.1 = r.indexName <;> simp [hp]
  · rw [if_neg h, if_neg h]
    simp

/-- One index-scan step preserves distinctness of the key list. -/
theorem addIndexRow_keys_nodup (m : List (String × IndexModel)) (r : IndexRow)
    (h : (m.map Prod.fst).Nodup) : ((addIndexRow m r).map Prod.fst).Nodup := by
  rw [addIndexRow_keys]
  by_cases hc : m.any (fun p => p.1 = r.indexName)
  · rwa [if_pos hc]
  · rw [if_neg hc]
    have hk : r.indexName ∉ m.map Prod.fst := by
      intro hmem
      rcases List.mem_map.mp hmem with ⟨p, hp, hpk⟩
      exact hc (List.any_eq_true.mpr ⟨p, hp, by simp [hpk]⟩)
    simp [List.nodup_append, h, hk]

/-- The grouped index map has distinct keys. -/
theorem buildIndexMap_keys_nodup (rows : List IndexRow) :
    ((buildIndexMap rows).map Prod.fst).Nodup := by
  suffices h : ∀ (rows : List IndexRow) (m : List (String × IndexModel)),
      (m.map Prod.fst).Nodup →
      ((rows.foldl (fun m r => if r.indexName = "PRIMARY" then m else addIndexRow m r)
          m).map Prod.fst).Nodup by
    exact h rows [] (by simp)
  intro rows
  induction rows with
  | nil => intro m hm; exact hm
  | cons r rows ih =>
    intro m hm
    rw [List.foldl_cons]
    by_cases hP : r.indexName = "PRIMARY"
    · rw [if_pos hP]
      exact ih m hm
    · rw [if_neg hP]
      exact ih _ (addIndexRow_keys_nodup m r hm)

/-- Iterating a distinct-keyed map over its own key list and looking each
key up yields exactly the value list. -/
theorem filterMap_lookup_eq_values {α : Type} :
    ∀ (m : List (String × α)), (m.map Prod.fst).Nodup →
      (m.map Prod.fst).filterMap (fun n => (m.find? (fun p => p.1 = n)).map Prod.snd)
        = m.map Prod.snd
  | [], _ => rfl
  | q :: rest, h => by
    rw [List.map_cons, List.filterMap_cons]
    have hq : ((q :: rest).find? (fun p => p.1 = q.1)).map Prod.snd = some q.2 := by
      simp [List.find?]
    rw [hq]
    have hcongr : (rest.map Prod.fst).filterMap
          (fun n => ((q :: rest).find? (fun p => p.1 = n)).map Prod.snd)
        = (rest.map Prod.fst).filterMap
          (fun n => (rest.find? (fun p => p.1 = n)).map Prod.snd) := by
      apply List.filterMap_congr
      intro n hn
      have hqn : ¬(q.1 = n) := by
        intro he
        exact (List.nodup_cons.mp h).1 (he ▸ hn)
      rw [List.find?_cons_of_neg _ (by simpa using hqn)]
    rw [hcongr, filterMap_lookup_eq_values rest (List.nodup_cons.mp h).2, List.map_cons]

/-- Folding the primary-key accumulator from an existing key appends the
`PRI` column names in encounter order. -/
theorem accumPK_foldl_some (rows : List ColumnRow) :
    ∀ (p : PrimaryKeyModel),
      rows.foldl accumPK (some p)
        = some { Name := p.Name,
                 Columns := p.Columns
                   ++ (rows.filter (fun r => r.columnKey = "PRI")).map
                       ColumnRow.columnName } := by
  induction rows with
  | nil => intro p; simp
  | cons r rows ih =>
    intro p
    have hstep : accumPK (some p) r
        = if r.columnKey = "PRI" then
            some { Name := p.Name, Columns := p.Columns ++ [r.columnName] }
          else some p := rfl
    rw [List.foldl_cons, hstep]
    by_cases hr : r.columnKey = "PRI"
    · rw [if_pos hr, ih, List.filter_cons, if_pos (by simpa using hr)]
      simp
    · rw [if_neg hr, ih, List.filter_cons, if_neg (by simpa using hr)]

/-- The primary key produced by the column scan: absent when no `PRI`
column occurs, otherwise named `PRIMARY` with the `PRI` columns' names in
encounter order. -/
theorem accumPK_foldl_none (rows : List ColumnRow) :
    rows.foldl accumPK none
      = if (rows.filter (fun r => r.columnKey = "PRI")).map ColumnRow.columnName = []
        then none
        else some { Name := "PRIMARY",
                    Columns := (rows.filter (fun r => r.columnKey = "PRI")).map
                      ColumnRow.columnName } := by
  induction rows with
  | nil => simp
  | cons r rows ih =>
    have hstep : accumPK none r
        = if r.columnKey = "PRI" then
            some { Name := "PRIMARY", Columns := [r.columnName] }
          else none := rfl
    rw [List.foldl_cons, hstep]
    by_cases hr : r.columnKey = "PRI"
    · have hfil : (r :: rows).filter (fun x => x.columnKey = "PRI")
          = r :: rows.filter (fun x => x.columnKey = "PRI") := by
        rw [List.filter_cons, if_pos (by simpa using hr)]
      rw [if_pos hr, accumPK_foldl_some rows ⟨"PRIMARY", [r.columnName]⟩, hfil,
        List.map_cons]
      rw [if_neg (by simp)]
      simp
    · have hfil : (r :: rows).filter (fun x => x.columnKey = "PRI")
          = rows.filter (fun x => x.columnKey = "PRI") := by
        rw [List.filter_cons, if_neg (by simpa using hr)]
      rw [if_neg hr, ih, hfil]

/-- C5 counterexample.  For a catalog with two indexes `a` and `b`, both
`["a", "b"]` and `["b", "a"]` are admissible Go map iteration orders
(permutations of the grouped map's keys), and `getTableStructure` returns
different snapshots for them: the order of the `IndexModel` list is the
map iteration order, not a deterministic catalog order. -/
theorem getTableStructure_index_order_nondeterministic :
    (["a", "b"] : List String).Perm
      ((buildIndexMap [IndexRow.mk "a" "c1" 1 "BTREE",
        IndexRow.mk "b" "c2" 1 "BTREE"]).map Prod.fst)
    ∧ (["b", "a"] : List String).Perm
      ((buildIndexMap [IndexRow.mk "a" "c1" 1 "BTREE",
        IndexRow.mk "b" "c2" 1 "BTREE"]).map Prod.fst)
    ∧ getTableStructure "t" [] [IndexRow.mk "a" "c1" 1 "BTREE",
        IndexRow.mk "b" "c2" 1 "BTREE"] ["a", "b"]
      ≠ getTableStructure "t" [] [IndexRow.mk "a" "c1" 1 "BTREE",
        IndexRow.mk "b" "c2" 1 "BTREE"] ["b", "a"] := by
  exact ⟨by decide, by decide, by decide⟩

/-- C5 amended.  What does hold of a snapshot, for every admissible map
iteration order: the column list is in catalog (ordinal) order; the
primary key collects the `PRI` columns' names in encounter order (absent
when there is none); each grouped index's column sequence is its catalog
rows' columns in `(INDEX_NAME, SEQ_IN_INDEX)` order; and the emitted index
list is a permutation of the grouped indexes — but its order follows the
map iteration order, which is not deterministic (see the counterexample). -/
theorem getTableStructure_catalog_order (name : String) (colRows : List ColumnRow)
    (idxRows : List IndexRow) (mapOrder : List String)
    (horder : mapOrder.Perm ((buildIndexMap idxRows).map Prod.fst)) :
    ((getTableStructure name colRows idxRows mapOrder).Columns.map ColumnModel.Name
        = colRows.map ColumnRow.columnName)
    ∧ ((getTableStructure name colRows idxRows mapOrder).PrimaryKey
        = if (colRows.filter (fun r => r.columnKey = "PRI")).map ColumnRow.columnName
            = [] then none
          else some { Name := "PRIMARY",
                      Columns := (colRows.filter (fun r => r.columnKey = "PRI")).map
                        ColumnRow.columnName })
    ∧ (∀ n i, n ≠ "PRIMARY" → mapGet (buildIndexMap idxRows) n = some i →
        i.Columns = (idxRows.filter (fun r => r.indexName = n)).map IndexRow.columnName)
    ∧ ((getTableStructure name colRows idxRows mapOrder).Indexes.Perm
        ((buildIndexMap idxRows).map Prod.snd)) := by
  refine ⟨?_, ?_, ?_, ?_⟩
  · show (colRows.map mkColumn).map ColumnModel.Name = colRows.map ColumnRow.columnName
    rw [List.map_map]
    apply List.map_congr_left
    intro r _
    rfl
  · exact accumPK_foldl_none colRows
  · intro n i hn h
    exact buildIndexMap_entry_cols idxRows n hn i h
  · have h1 := horder.filterMap
      (fun n => ((buildIndexMap idxRows).find? (fun p => p.1 = n)).map Prod.snd)
    rw [filterMap_lookup_eq_values (buildIndexMap idxRows)
      (buildIndexMap_keys_nodup idxRows)] at h1
    exact h1

/-- Witness for `getTableStructure_catalog_order` at a one-column,
one-index catalog. -/
theorem getTableStructure_catalog_order_witness :
    (["i1"] : List String).Perm
      ((buildIndexMap [IndexRow.mk "i1" "c1" 1 "BTREE"]).map Prod.fst)
    ∧ (((getTableStructure "t" [ColumnRow.mk "id" "int" "NO" "PRI" none ""]
          [IndexRow.mk "i1" "c1" 1 "BTREE"] ["i1"]).Columns.map ColumnModel.Name
        = [ColumnRow.mk "id" "int" "NO" "PRI" none ""].map ColumnRow.columnName)
      ∧ ((getTableStructure "t" [ColumnRow.mk "id" "int" "NO" "PRI" none ""]
          [IndexRow.mk "i1" "c1" 1 "BTREE"] ["i1"]).PrimaryKey
        = if ([ColumnRow.mk "id" "int" "NO" "PRI" none ""].filter
              (fun r => r.columnKey = "PRI")).map ColumnRow.columnName = [] then none
          else some { Name := "PRIMARY",
                      Columns := ([ColumnRow.mk "id" "int" "NO" "PRI" none ""].filter
                        (fun r => r.columnKey = "PRI")).map ColumnRow.columnName })
      ∧ (∀ n i, n ≠ "PRIMARY" →
          mapGet (buildIndexMap [IndexRow.mk "i1" "c1" 1 "BTREE"]) n = some i →
          i.Columns = ([IndexRow.mk "i1" "c1" 1 "BTREE"].filter
            (fun r => r.indexName = n)).map IndexRow.columnName)
      ∧ ((getTableStructure "t" [ColumnRow.mk "id" "int" "NO" "PRI" none ""]
          [IndexRow.mk "i1" "c1" 1 "BTREE"] ["i1"]).Indexes.Perm
        ((buildIndexMap [IndexRow.mk "i1" "c1" 1 "BTREE"]).map Prod.snd))) :=
  ⟨by decide,
    getTableStructure_catalog_order "t" [ColumnRow.mk "id" "int" "NO" "PRI" none ""]
      [IndexRow.mk "i1" "c1" 1 "BTREE"] ["i1"] (by decide)⟩

/-- Equal-length but unequal lists fail the positional scan somewhere. -/
theorem zip_any_ne_of_ne :
    ∀ (l₁ l₂ : List String), l₁.length = l₂.length → l₁ ≠ l₂ →
      (l₁.zip l₂).any (fun p => decide (p.1 ≠ p.2)) = true
  | [], [], _, h => absurd rfl h
  | [], _ :: _, hlen, _ => by simp at hlen
  | _ :: _, [], hlen, _ => by simp at hlen
  | a :: l₁, b :: l₂, hlen, hne => by
    rw [List.zip_cons_cons, List.any_cons]
    by_cases hab : a = b
    · subst hab
      have hne' : l₁ ≠ l₂ := fun h => hne (by rw [h])
      have ih := zip_any_ne_of_ne l₁ l₂ (by simpa using hlen) hne'
      rw [show (decide ((a, a).1 ≠ (a, a).2)) = false from by simp, Bool.false_or]
      exact ih
    · simp [hab]

/-- Permuting an index's columns without making them equal is detected as
a difference. -/
theorem indexesAreDifferent_of_perm_ne (si ti : IndexModel)
    (hperm : si.Columns.Perm ti.Columns) (hne : si.Columns ≠ ti.Columns) :
    indexesAreDifferent si ti = true := by
  unfold indexesAreDifferent
  by_cases h1 : si.NonUnique ≠ ti.NonUnique ∨ si.IndexType ≠ ti.IndexType
  · rw [if_pos h1]
  · rw [if_neg h1]
    have hlen : si.Columns.length = ti.Columns.length := hperm.length_eq
    rw [if_neg (fun hc => hc hlen)]
    exact zip_any_ne_of_ne _ _ hlen hne

/-- Permuting a primary key's columns without making them equal is
detected as a difference. -/
theorem primaryKeysAreDifferent_of_perm_ne (sp tp : PrimaryKeyModel)
    (hperm : sp.Columns.Perm tp.Columns) (hne : sp.Columns ≠ tp.Columns) :
    primaryKeysAreDifferent sp tp = true := by
  unfold primaryKeysAreDifferent
  have hlen : sp.Columns.length = tp.Columns.length := hperm.length_eq
  rw [if_neg (fun hc => hc hlen)]
  exact zip_any_ne_of_ne _ _ hlen hne

/-- Every difference emitted by `compareColumns` is a column difference. -/
theorem compareColumns_dtype (A B : TableModel) :
    ∀ d ∈ compareColumns A B,
      d.dtype = AddColumn ∨ d.dtype = ModifyColumn ∨ d.dtype = DropColumn := by
  intro d hd
  unfold compareColumns at hd
  rw [List.mem_append] at hd
  rcases hd with hd | hd
  · rcases List.mem_filterMap.mp hd with ⟨p, _, hf⟩
    unfold colAddDiff at hf
    by_cases hc : (mapGet (mapBuild ColumnModel.Name B.Columns) p.1).isSome
    · simp [hc] at hf
    · simp only [hc, if_false, Bool.false_eq_true, Option.some.injEq] at hf
      rw [← hf]
      exact Or.inl rfl
  · rcases List.mem_filterMap.mp hd with ⟨p, _, hf⟩
    unfold colModDropDiff at hf
    cases hm : mapGet (mapBuild ColumnModel.Name A.Columns) p.1 with
    | some sc =>
      rw [hm] at hf
      have hf' : (if columnsAreDifferent sc p.2 then
          some ({ dtype := ModifyColumn, Name := p.1
                  Description := "Modify column '" ++ p.1 ++ "'"
                  SQL := generateModifyColumnSQL A.Name sc } : Difference)
        else none) = some d := hf
      by_cases hdiff : columnsAreDifferent sc p.2
      · rw [if_pos hdiff] at hf'
        rw [← Option.some_injective _ hf']
        exact Or.inr (Or.inl rfl)
      · rw [if_neg hdiff] at hf'
        cases hf'
    | none =>
      rw [hm] at hf
      have hf' : some
          ({ dtype := DropColumn, Name := p.1,
             Description := "Drop column '" ++ p.1 ++ "'",
             SQL := "ALTER TABLE `" ++ A.Name ++ "` DROP COLUMN `" ++ p.1 ++ "`" } :
            Difference)
          = some d := hf
      rw [← Option.some_injective _ hf']
      exact Or.inr (Or.inr rfl)

/-- Every difference emitted by `comparePrimaryKeys` is a primary-key
difference. -/
theorem comparePrimaryKeys_dtype (A B : TableModel) :
    ∀ d ∈ comparePrimaryKeys A B,
      d.dtype = AddPrimaryKey ∨ d.dtype = DropPrimaryKey := by
  intro d hd
  unfold comparePrimaryKeys at hd
  cases hA : A.PrimaryKey with
  | none =>
    cases hB : B.PrimaryKey with
    | none => rw [hA, hB] at hd; cases hd
    | some tp =>
      rw [hA, hB] at hd
      rw [List.mem_singleton] at hd
      rw [hd]
      exact Or.inr rfl
  | some sp =>
    cases hB : B.PrimaryKey with
    | none =>
      rw [hA, hB] at hd
      rw [List.mem_singleton] at hd
      rw [hd]
      exact Or.inl rfl
    | some tp =>
      rw [hA, hB] at hd
      have hd' : d ∈ (if primaryKeysAreDifferent sp tp then
          [({ dtype := DropPrimaryKey, Name := "PRIMARY",
              Description := "Drop existing primary key",
              SQL := "ALTER TABLE `" ++ A.Name ++ "` DROP PRIMARY KEY" } : Difference),
           { dtype := AddPrimaryKey, Name := "PRIMARY",
             Description := "Add new primary key",
             SQL := generateAddPrimaryKeySQL A.Name sp }]
        else []) := hd
      by_cases hdiff : primaryKeysAreDifferent sp tp
      · rw [if_pos hdiff, List.mem_cons, List.mem_singleton] at hd'
        rcases hd' with hd' | hd'
        · rw [hd']; exact Or.inr rfl
        · rw [hd']; exact Or.inl rfl
      · rw [if_neg hdiff] at hd'
        cases hd'

/-- A successful Go map lookup pins down the found association pair. -/
theorem mapGet_eq_find {α : Type} (m : List (String × α)) (n : String) (v : α)
    (h : mapGet m n = some v) : m.find? (fun p => p.1 = n) = some (n, v) := by
  unfold mapGet at h
  cases hf : m.find? (fun p => p.1 = n) with
  | none => rw [hf] at h; cases h
  | some q =>
    rw [hf] at h
    have hq1 : q.1 = n := by simpa using List.find?_some hf
    have hq2 : q.2 = v := by simpa using h
    rw [show q = (n, v) from Prod.ext hq1 hq2]

/-- Filtering a keyed flat-map for one key keeps exactly that key's chunk,
when every emitted difference carries its originating key as its name. -/
theorem filter_flatMap_single {β : Type} (f : (String × β) → List Difference)
    (pred : Difference → Bool) (n : String) (si : β)
    (hf : ∀ p, ∀ d ∈ f p, d.Name = p.1)
    (hpredname : ∀ d, pred d = true → d.Name = n) :
    ∀ (l : List (String × β)), (l.map Prod.fst).Nodup →
      l.find? (fun p => p.1 = n) = some (n, si) →
      (l.flatMap f).filter pred = (f (n, si)).filter pred
  | [], _, hfind => by cases hfind
  | q :: rest, hnd, hfind => by
    rw [List.flatMap_cons, List.filter_append]
    by_cases hq : q.1 = n
    · have hqe : q = (n, si) := by
        rw [List.find?_cons_of_pos _ (by simpa using hq)] at hfind
        exact Option.some_injective _ hfind
      have hrest : (rest.flatMap f).filter pred = [] := by
        rw [List.filter_eq_nil_iff]
        intro d hd hpd
        rcases List.mem_flatMap.mp hd with ⟨p, hp, hdp⟩
        have h1 : d.Name = p.1 := hf p d hdp
        have h2 : d.Name = n := hpredname d hpd
        have : n ∈ rest.map Prod.fst := List.mem_map.mpr ⟨p, hp, by rw [← h1, h2]⟩
        rw [← hq] at this
        exact (List.nodup_cons.mp (by simpa using hnd)).1 this
      rw [hqe, hrest, List.append_nil]
    · have hstep : rest.find? (fun p => p.1 = n) = some (n, si) := by
        rw [List.find?_cons_of_neg _ (by simpa using hq)] at hfind
        exact hfind
      have hhead : (f q).filter pred = [] := by
        rw [List.filter_eq_nil_iff]
        intro d hd hpd
        exact hq (((hf q d hd).symm.trans (hpredname d hpd)))
      rw [hhead, List.nil_append]
      exact filter_flatMap_single f pred n si hf hpredname rest
        (by simpa using (List.nodup_cons.mp (by simpa using hnd)).2) hstep

/-- Every difference of one source-entry chunk carries the entry's key as
its name and is an add or a drop. -/
theorem indexChunk_shape (sourceName : String)
    (tm : List (String × IndexModel)) :
    ∀ p, ∀ d ∈ indexChunk sourceName tm p,
      d.Name = p.1 ∧ (d.dtype = AddIndex ∨ d.dtype = DropIndex) := by
  intro p d hd
  unfold indexChunk at hd
  cases hm : mapGet tm p.1 with
  | none =>
    rw [hm, List.mem_singleton] at hd
    rw [hd]
    exact ⟨rfl, Or.inl rfl⟩
  | some ti =>
    rw [hm] at hd
    have hd' : d ∈ (if indexesAreDifferent p.2 ti then
        [({ dtype := DropIndex, Name := p.1
            Description := "Drop index '" ++ p.1 ++ "'"
            SQL := dropIndexSQL sourceName p.1 } : Difference),
         { dtype := AddIndex, Name := p.1
           Description := "Recreate index '" ++ p.1 ++ "'"
           SQL := generateAddIndexSQL sourceName p.2 }]
      else []) := hd
    by_cases hdiff : indexesAreDifferent p.2 ti
    · rw [if_pos hdiff, List.mem_cons, List.mem_singleton] at hd'
      rcases hd' with hd' | hd'
      · rw [hd']; exact ⟨rfl, Or.inr rfl⟩
      · rw [hd']; exact ⟨rfl, Or.inl rfl⟩
    · rw [if_neg hdiff] at hd'
      cases hd'

/-- Every difference emitted by `compareIndexes` is an index difference
(add or drop; the in-place `ModifyIndex` variant is never emitted). -/
theorem compareIndexes_dtype (A B : TableModel) :
    ∀ d ∈ compareIndexes A B, d.dtype = AddIndex ∨ d.dtype = DropIndex := by
  intro d hd
  unfold compareIndexes at hd
  rw [List.mem_append] at hd
  rcases hd with hd | hd
  · rcases List.mem_flatMap.mp hd with ⟨p, _, hdp⟩
    exact (indexChunk_shape A.Name _ p d hdp).2
  · rcases List.mem_filterMap.mp hd with ⟨p, _, hf⟩
    unfold idxDropDiff at hf
    by_cases hc : (mapGet (mapBuild IndexModel.Name A.Indexes) p.1).isSome
    · simp [hc] at hf
    · simp only [hc, if_false, Bool.false_eq_true, Option.some.injEq] at hf
      rw [← hf]
      exact Or.inr rfl

/-- C8.  An index of the same name on both sides whose column sequences
are permutations of each other but not positionally equal (uniqueness and
method unchanged) makes the differ emit, among the plan's index
differences of that name, exactly a `DropIndex` followed by an `AddIndex`
rendered from the source index — never a no-op and never a `ModifyIndex`;
and a primary key whose column sequence is likewise permuted yields
exactly `DropPrimaryKey` followed by `AddPrimaryKey` among the plan's
primary-key differences. -/
theorem permuted_index_emits_drop_then_add (A B : TableModel) (n : String)
    (si ti : IndexModel)
    (hsi : mapGet (mapBuild IndexModel.Name A.Indexes) n = some si)
    (hti : mapGet (mapBuild IndexModel.Name B.Indexes) n = some ti)
    (hperm : si.Columns.Perm ti.Columns) (hne : si.Columns ≠ ti.Columns)
    (hu : si.NonUnique = ti.NonUnique) (hmeth : si.IndexType = ti.IndexType) :
    ((Compare A B).Differences.filter (fun d =>
        decide ((d.dtype = AddIndex ∨ d.dtype = ModifyIndex ∨ d.dtype = DropIndex)
          ∧ d.Name = n))
      = [{ dtype := DropIndex, Name := n
           Description := "Drop index '" ++ n ++ "'"
           SQL := dropIndexSQL A.Name n },
         { dtype := AddIndex, Name := n
           Description := "Recreate index '" ++ n ++ "'"
           SQL := generateAddIndexSQL A.Name si }])
    ∧ (∀ sp tp, A.PrimaryKey = some sp → B.PrimaryKey = some tp →
        sp.Columns.Perm tp.Columns → sp.Columns ≠ tp.Columns →
        (Compare A B).Differences.filter (fun d =>
            decide (d.dtype = AddPrimaryKey ∨ d.dtype = DropPrimaryKey))
          = [{ dtype := DropPrimaryKey, Name := "PRIMARY"
               Description := "Drop existing primary key"
               SQL := "ALTER TABLE `" ++ A.Name ++ "` DROP PRIMARY KEY" },
             { dtype := AddPrimaryKey, Name := "PRIMARY"
               Description := "Add new primary key"
               SQL := generateAddPrimaryKeySQL A.Name sp }]) := by
  have heq : (Compare A B).Differences
      = compareColumns A B ++ compareIndexes A B ++ comparePrimaryKeys A B := rfl
  constructor
  · have hcc : (compareColumns A B).filter (fun d =>
        decide ((d.dtype = AddIndex ∨ d.dtype = ModifyIndex ∨ d.dtype = DropIndex)
          ∧ d.Name = n)) = [] := by
      rw [List.filter_eq_nil_iff]
      intro d hd hp
      have hp' := of_decide_eq_true hp
      rcases compareColumns_dtype A B d hd with h | h | h <;>
        rcases hp'.1 with h' | h' | h' <;> (rw [h] at h'; exact absurd h' (by decide))
    have hcp : (comparePrimaryKeys A B).filter (fun d =>
        decide ((d.dtype = AddIndex ∨ d.dtype = ModifyIndex ∨ d.dtype = DropIndex)
          ∧ d.Name = n)) = [] := by
      rw [List.filter_eq_nil_iff]
      intro d hd hp
      have hp' := of_decide_eq_true hp
      rcases comparePrimaryKeys_dtype A B d hd with h | h <;>
        rcases hp'.1 with h' | h' | h' <;> (rw [h] at h'; exact absurd h' (by decide))
    have hci : compareIndexes A B
        = (mapBuild IndexModel.Name A.Indexes).flatMap
            (indexChunk A.Name (mapBuild IndexModel.Name B.Indexes))
          ++ (mapBuild IndexModel.Name B.Indexes).filterMap (fun p =>
            if (mapGet (mapBuild IndexModel.Name A.Indexes) p.1).isSome then none
            else some ({ dtype := DropIndex, Name := p.1
                         Description := "Drop index '" ++ p.1 ++ "'"
                         SQL := dropIndexSQL A.Name p.1 } : Difference)) := rfl
    have hdrops : ((mapBuild IndexModel.Name B.Indexes).filterMap (fun p =>
        if (mapGet (mapBuild IndexModel.Name A.Indexes) p.1).isSome then none
        else some ({ dtype := DropIndex, Name := p.1
                     Description := "Drop index '" ++ p.1 ++ "'"
                     SQL := dropIndexSQL A.Name p.1 } : Difference))).filter (fun d =>
        decide ((d.dtype = AddIndex ∨ d.dtype = ModifyIndex ∨ d.dtype = DropIndex)
          ∧ d.Name = n)) = [] := by
      rw [List.filter_eq_nil_iff]
      intro d hd hp
      rcases List.mem_filterMap.mp hd with ⟨p, _, hf⟩
      by_cases hc : (mapGet (mapBuild IndexModel.Name A.Indexes) p.1).isSome
      · simp [hc] at hf
      · simp only [hc, if_false, Bool.false_eq_true, Option.some.injEq] at hf
        have hname : d.Name = p.1 := by rw [← hf]
        have hpn : p.1 = n := hname.symm.trans (of_decide_eq_true hp).2
        rw [hpn] at hc
        exact hc (by rw [hsi]; rfl)
    have hchunk : indexChunk A.Name (mapBuild IndexModel.Name B.Indexes) (n, si)
        = [{ dtype := DropIndex, Name := n
             Description := "Drop index '" ++ n ++ "'"
             SQL := dropIndexSQL A.Name n },
           { dtype := AddIndex, Name := n
             Description := "Recreate index '" ++ n ++ "'"
             SQL := generateAddIndexSQL A.Name si }] := by
      unfold indexChunk
      dsimp only
      rw [hti]
      have hifeq : (match (some ti : Option IndexModel) with
          | none =>
            [({ dtype := AddIndex, Name := n
                Description := "Add index '" ++ n ++ "'"
                SQL := generateAddIndexSQL A.Name si } : Difference)]
          | some targetIdx =>
            if indexesAreDifferent si targetIdx then
              [({ dtype := DropIndex, Name := n
                  Description := "Drop index '" ++ n ++ "'"
                  SQL := dropIndexSQL A.Name n } : Difference),
               { dtype := AddIndex, Name := n
                 Description := "Recreate index '" ++ n ++ "'"
                 SQL := generateAddIndexSQL A.Name si }]
            else [])
          = (if indexesAreDifferent si ti then
              [({ dtype := DropIndex, Name := n
                  Description := "Drop index '" ++ n ++ "'"
                  SQL := dropIndexSQL A.Name n } : Difference),
               { dtype := AddIndex, Name := n
                 Description := "Recreate index '" ++ n ++ "'"
                 SQL := generateAddIndexSQL A.Name si }]
            else []) := rfl
      rw [hifeq, if_pos (indexesAreDifferent_of_perm_ne si ti hperm hne)]
    rw [heq, List.filter_append, List.filter_append, hcc, hcp, List.nil_append,
      List.append_nil, hci, List.filter_append, hdrops, List.append_nil,
      filter_flatMap_single (indexChunk A.Name (mapBuild IndexModel.Name B.Indexes))
        _ n si (fun p d hd => (indexChunk_shape A.Name _ p d hd).1)
        (fun d hd => (of_decide_eq_true hd).2)
        (mapBuild IndexModel.Name A.Indexes) (mapBuild_keys_nodup _ _)
        (mapGet_eq_find _ _ _ hsi),
      hchunk]
    apply List.filter_eq_self.mpr
    intro d hd
    rw [List.mem_cons, List.mem_singleton] at hd
    rcases hd with hd | hd <;> rw [hd]
    · exact decide_eq_true ⟨Or.inr (Or.inr rfl), rfl⟩
    · exact decide_eq_true ⟨Or.inl rfl, rfl⟩
  · intro sp tp hA hB hperm2 hne2
    have hdiffpk : primaryKeysAreDifferent sp tp = true :=
      primaryKeysAreDifferent_of_perm_ne sp tp hperm2 hne2
    have hcpeq : comparePrimaryKeys A B
        = (if primaryKeysAreDifferent sp tp then
            [({ dtype := DropPrimaryKey, Name := "PRIMARY"
                Description := "Drop existing primary key"
                SQL := "ALTER TABLE `" ++ A.Name ++ "` DROP PRIMARY KEY" } : Difference),
             { dtype := AddPrimaryKey, Name := "PRIMARY"
               Description := "Add new primary key"
               SQL := generateAddPrimaryKeySQL A.Name sp }]
          else []) := by
      unfold comparePrimaryKeys
      rw [hA, hB]
    have hcc2 : (compareColumns A B).filter (fun d =>
        decide (d.dtype = AddPrimaryKey ∨ d.dtype = DropPrimaryKey)) = [] := by
      rw [List.filter_eq_nil_iff]
      intro d hd hp
      rcases compareColumns_dtype A B d hd with h | h | h <;>
        rcases of_decide_eq_true hp with h' | h' <;>
        (rw [h] at h'; exact absurd h' (by decide))
    have hci2 : (compareIndexes A B).filter (fun d =>
        decide (d.dtype = AddPrimaryKey ∨ d.dtype = DropPrimaryKey)) = [] := by
      rw [List.filter_eq_nil_iff]
      intro d hd hp
      rcases compareIndexes_dtype A B d hd with h | h <;>
        rcases of_decide_eq_true hp with h' | h' <;>
        (rw [h] at h'; exact absurd h' (by decide))
    rw [heq, List.filter_append, List.filter_append, hcc2, hci2, List.nil_append,
      List.nil_append, hcpeq, if_pos hdiffpk]
    apply List.filter_eq_self.mpr
    intro d hd
    rw [List.mem_cons, List.mem_singleton] at hd
    rcases hd with hd | hd <;> rw [hd]
    · exact decide_eq_true (Or.inr rfl)
    · exact decide_eq_true (Or.inl rfl)

/-- Witness for `permuted_index_emits_drop_then_add`: single-index tables
whose index columns (and primary-key columns) are permuted. -/
theorem permuted_index_emits_drop_then_add_witness :
    ((Compare
        (TableModel.mk "t" [] [IndexModel.mk "i" ["a", "b"] 1 "BTREE"]
          (some (PrimaryKeyModel.mk "PRIMARY" ["x", "y"])))
        (TableModel.mk "t" [] [IndexModel.mk "i" ["b", "a"] 1 "BTREE"]
          (some (PrimaryKeyModel.mk "PRIMARY" ["y", "x"])))).Differences.filter
        (fun d =>
          decide ((d.dtype = AddIndex ∨ d.dtype = ModifyIndex ∨ d.dtype = DropIndex)
            ∧ d.Name = "i"))
      = [{ dtype := DropIndex, Name := "i"
           Description := "Drop index 'i'"
           SQL := dropIndexSQL "t" "i" },
         { dtype := AddIndex, Name := "i"
           Description := "Recreate index 'i'"
           SQL := generateAddIndexSQL "t" (IndexModel.mk "i" ["a", "b"] 1 "BTREE") }])
    ∧ ((Compare
        (TableModel.mk "t" [] [IndexModel.mk "i" ["a", "b"] 1 "BTREE"]
          (some (PrimaryKeyModel.mk "PRIMARY" ["x", "y"])))
        (TableModel.mk "t" [] [IndexModel.mk "i" ["b", "a"] 1 "BTREE"]
          (some (PrimaryKeyModel.mk "PRIMARY" ["y", "x"])))).Differences.filter
        (fun d => decide (d.dtype = AddPrimaryKey ∨ d.dtype = DropPrimaryKey))
      = [{ dtype := DropPrimaryKey, Name := "PRIMARY"
           Description := "Drop existing primary key"
           SQL := "ALTER TABLE `t` DROP PRIMARY KEY" },
         { dtype := AddPrimaryKey, Name := "PRIMARY"
           Description := "Add new primary key"
           SQL := generateAddPrimaryKeySQL "t" (PrimaryKeyModel.mk "PRIMARY" ["x", "y"]) }]) :=
  ⟨(permuted_index_emits_drop_then_add
      (TableModel.mk "t" [] [IndexModel.mk "i" ["a", "b"] 1 "BTREE"]
        (some (PrimaryKeyModel.mk "PRIMARY" ["x", "y"])))
      (TableModel.mk "t" [] [IndexModel.mk "i" ["b", "a"] 1 "BTREE"]
        (some (PrimaryKeyModel.mk "PRIMARY" ["y", "x"])))
      "i" (IndexModel.mk "i" ["a", "b"] 1 "BTREE")
      (IndexModel.mk "i" ["b", "a"] 1 "BTREE")
      (by decide) (by decide) (by decide) (by decide) rfl rfl).1,
    (permuted_index_emits_drop_then_add
      (TableModel.mk "t" [] [IndexModel.mk "i" ["a", "b"] 1 "BTREE"]
        (some (PrimaryKeyModel.mk "PRIMARY" ["x", "y"])))
      (TableModel.mk "t" [] [IndexModel.mk "i" ["b", "a"] 1 "BTREE"]
        (some (PrimaryKeyModel.mk "PRIMARY" ["y", "x"])))
      "i" (IndexModel.mk "i" ["a", "b"] 1 "BTREE")
      (IndexModel.mk "i" ["b", "a"] 1 "BTREE")
      (by decide) (by decide) (by decide) (by decide) rfl rfl).2
      (PrimaryKeyModel.mk "PRIMARY" ["x", "y"]) (PrimaryKeyModel.mk "PRIMARY" ["y", "x"])
      rfl rfl (by decide) (by decide)⟩

/-- With distinct keys, building a Go map records exactly the key/value
pairs in slice order. -/
theorem mapBuild_eq_pairify {α : Type} (key : α → String) (l : List α)
    (h : (l.map key).Nodup) :
    mapBuild key l = l.map (fun a => (key a, a)) := by
  suffices hgo : ∀ (l : List α) (m : List (String × α)),
      (∀ a ∈ l, ∀ p ∈ m, p.1 ≠ key a) → (l.map key).Nodup →
      l.foldl (fun m a => mapInsert m (key a) a) m
        = m ++ l.map (fun a => (key a, a)) by
    simpa using hgo l [] (by simp) h
  intro l
  induction l with
  | nil =>
    intro m _ _
    simp
  | cons a l ih =>
    intro m hm hnd
    have hnd' : (key a) ∉ l.map key ∧ (l.map key).Nodup := by
      rw [List.map_cons, List.nodup_cons] at hnd
      exact hnd
    rw [List.foldl_cons]
    have hins : mapInsert m (key a) a = m ++ [(key a, a)] := by
      unfold mapInsert
      rw [if_neg ?both]
      case both =>
        intro hany
        rcases List.any_eq_true.mp hany with ⟨p, hp, hpk⟩
        exact hm a (List.mem_cons_self a l) p hp (by simpa using hpk)
    rw [hins, ih (m ++ [(key a, a)]) ?cond hnd'.2]
    · simp
    case cond =>
      intro b hb p hp
      rw [List.mem_append] at hp
      rcases hp with hp | hp
      · exact hm b (List.mem_cons_of_mem a hb) p hp
      · rw [List.mem_singleton] at hp
        rw [hp]
        intro he
        have he' : key a = key b := he
        have hmem : key b ∈ l.map key := List.mem_map.mpr ⟨b, hb, rfl⟩
        rw [← he'] at hmem
        exact hnd'.1 hmem

/-- Lookup in a pairified slice is `find?` by key. -/
theorem mapGet_pairify {α : Type} (key : α → String) (l : List α) (n : String) :
    mapGet (l.map (fun a => (key a, a))) n = l.find? (fun a => key a = n) := by
  unfold mapGet
  rw [List.find?_map]
  have hc : ((fun p : String × α => decide (p.1 = n)) ∘ (fun a => (key a, a)))
      = fun a => decide (key a = n) := rfl
  rw [hc]
  cases hf : l.find? (fun a => decide (key a = n)) <;> rfl

/-- With distinct keys, Go map lookup is `find?` over the slice. -/
theorem mapGet_mapBuild_nodup {α : Type} (key : α → String) (l : List α)
    (h : (l.map key).Nodup) (n : String) :
    mapGet (mapBuild key l) n = l.find? (fun a => key a = n) := by
  rw [mapBuild_eq_pairify key l h, mapGet_pairify]

/-- Every entry of a built map stores a value whose key is the entry's
key. -/
theorem mapBuild_entry_key {α : Type} (key : α → String) (l : List α) :
    ∀ p ∈ mapBuild key l, key p.2 = p.1 := by
  suffices hgo : ∀ (l : List α) (m : List (String × α)),
      (∀ p ∈ m, key p.2 = p.1) →
      ∀ p ∈ l.foldl (fun m a => mapInsert m (key a) a) m, key p.2 = p.1 by
    exact hgo l [] (by simp)
  intro l
  induction l with
  | nil =>
    intro m hm
    exact hm
  | cons a l ih =>
    intro m hm
    rw [List.foldl_cons]
    refine ih (mapInsert m (key a) a) ?_
    intro p hp
    unfold mapInsert at hp
    by_cases hany : m.any (fun q => q.1 = key a)
    · rw [if_pos hany] at hp
      rcases List.mem_map.mp hp with ⟨q, hq, hqe⟩
      by_cases hqk : q.1 = key a
      · rw [if_pos hqk] at hqe
        rw [← hqe]
      · rw [if_neg hqk] at hqe
        rw [← hqe]
        exact hm q hq
    · rw [if_neg hany, List.mem_append] at hp
      rcases hp with hp | hp
      · exact hm p hp
      · rw [List.mem_singleton] at hp
        rw [hp]

/-- A successful lookup in a built map returns a value bearing the looked
up key as its name. -/
theorem mapGet_mapBuild_name {α : Type} (key : α → String) (l : List α)
    (n : String) (v : α) (h : mapGet (mapBuild key l) n = some v) : key v = n := by
  unfold mapGet at h
  cases hf : (mapBuild key l).find? (fun p => p.1 = n) with
  | none => rw [hf] at h; cases h
  | some q =>
    rw [hf] at h
    have hq1 : q.1 = n := by simpa using List.find?_some hf
    have hqm : q ∈ mapBuild key l := List.mem_of_find?_eq_some hf
    have hv : q.2 = v := by simpa using h
    rw [← hv, mapBuild_entry_key key l q hqm, hq1]

/-- Effect of an `ADD_COLUMN` statement on the snapshot. -/
theorem applyDifference_addColumn (A t : TableModel) (nm ds sq : String) :
    applyDifference A t ⟨AddColumn, nm, ds, sq⟩
      = match mapGet (mapBuild ColumnModel.Name A.Columns) nm with
        | some sc => { t with Columns := t.Columns ++ [sc] }
        | none => t := by
  unfold applyDifference
  rw [if_pos rfl]

/-- Effect of a `MODIFY_COLUMN` statement on the snapshot. -/
theorem applyDifference_modifyColumn (A t : TableModel) (nm ds sq : String) :
    applyDifference A t ⟨ModifyColumn, nm, ds, sq⟩
      = match mapGet (mapBuild ColumnModel.Name A.Columns) nm with
        | some sc =>
          { t with Columns := t.Columns.map (fun c => if c.Name = nm then sc else c) }
        | none => t := by
  unfold applyDifference
  rw [if_neg (show ¬(ModifyColumn = AddColumn) by decide),
    if_pos rfl]

/-- Effect of a `DROP_COLUMN` statement on the snapshot. -/
theorem applyDifference_dropColumn (A t : TableModel) (nm ds sq : String) :
    applyDifference A t ⟨DropColumn, nm, ds, sq⟩
      = { t with Columns := t.Columns.filter (fun c => c.Name ≠ nm) } := by
  unfold applyDifference
  rw [if_neg (show ¬(DropColumn = AddColumn) by decide), if_neg (show ¬(DropColumn = ModifyColumn) by decide),
    if_pos rfl]

/-- Effect of an `ADD_INDEX` (create index) statement on the snapshot. -/
theorem applyDifference_addIndex (A t : TableModel) (nm ds sq : String) :
    applyDifference A t ⟨AddIndex, nm, ds, sq⟩
      = match mapGet (mapBuild IndexModel.Name A.Indexes) nm with
        | some si => { t with Indexes := t.Indexes ++ [si] }
        | none => t := by
  unfold applyDifference
  rw [if_neg (show ¬(AddIndex = AddColumn) by decide), if_neg (show ¬(AddIndex = ModifyColumn) by decide), if_neg (show ¬(AddIndex = DropColumn) by decide),
    if_pos rfl]

/-- Effect of a `DROP_INDEX` statement on the snapshot. -/
theorem applyDifference_dropIndex (A t : TableModel) (nm ds sq : String) :
    applyDifference A t ⟨DropIndex, nm, ds, sq⟩
      = { t with Indexes := t.Indexes.filter (fun i => i.Name ≠ nm) } := by
  unfold applyDifference
  rw [if_neg (show ¬(DropIndex = AddColumn) by decide), if_neg (show ¬(DropIndex = ModifyColumn) by decide), if_neg (show ¬(DropIndex = DropColumn) by decide), if_neg (show ¬(DropIndex = AddIndex) by decide),
    if_pos rfl]

/-- Effect of an `ADD_PRIMARY_KEY` statement on the snapshot. -/
theorem applyDifference_addPrimaryKey (A t : TableModel) (nm ds sq : String) :
    applyDifference A t ⟨AddPrimaryKey, nm, ds, sq⟩
      = { t with PrimaryKey := A.PrimaryKey } := by
  unfold applyDifference
  rw [if_neg (show ¬(AddPrimaryKey = AddColumn) by decide), if_neg (show ¬(AddPrimaryKey = ModifyColumn) by decide), if_neg (show ¬(AddPrimaryKey = DropColumn) by decide), if_neg (show ¬(AddPrimaryKey = AddIndex) by decide), if_neg (show ¬(AddPrimaryKey = DropIndex) by decide),
    if_pos rfl]

/-- Effect of a `DROP_PRIMARY_KEY` statement on the snapshot. -/
theorem applyDifference_dropPrimaryKey (A t : TableModel) (nm ds sq : String) :
    applyDifference A t ⟨DropPrimaryKey, nm, ds, sq⟩
      = { t with PrimaryKey := none } := by
  unfold applyDifference
  rw [if_neg (show ¬(DropPrimaryKey = AddColumn) by decide), if_neg (show ¬(DropPrimaryKey = ModifyColumn) by decide), if_neg (show ¬(DropPrimaryKey = DropColumn) by decide), if_neg (show ¬(DropPrimaryKey = AddIndex) by decide), if_neg (show ¬(DropPrimaryKey = DropIndex) by decide), if_neg (show ¬(DropPrimaryKey = AddPrimaryKey) by decide),
    if_pos rfl]

/-- Index and primary-key statements do not touch the column list. -/
theorem applyDifference_columns_frame (A t : TableModel) (d : Difference)
    (h : d.dtype = AddIndex ∨ d.dtype = DropIndex ∨ d.dtype = AddPrimaryKey
      ∨ d.dtype = DropPrimaryKey) :
    (applyDifference A t d).Columns = t.Columns := by
  obtain ⟨dt, nm, ds, sq⟩ := d
  rcases h with h | h | h | h <;> (dsimp only at h; subst h)
  · rw [applyDifference_addIndex]
    cases mapGet (mapBuild IndexModel.Name A.Indexes) nm <;> rfl
  · rw [applyDifference_dropIndex]
  · rw [applyDifference_addPrimaryKey]
  · rw [applyDifference_dropPrimaryKey]

/-- Column and primary-key statements do not touch the index list. -/
theorem applyDifference_indexes_frame (A t : TableModel) (d : Difference)
    (h : d.dtype = AddColumn ∨ d.dtype = ModifyColumn ∨ d.dtype = DropColumn
      ∨ d.dtype = AddPrimaryKey ∨ d.dtype = DropPrimaryKey) :
    (applyDifference A t d).Indexes = t.Indexes := by
  obtain ⟨dt, nm, ds, sq⟩ := d
  rcases h with h | h | h | h | h <;> (dsimp only at h; subst h)
  · rw [applyDifference_addColumn]
    cases mapGet (mapBuild ColumnModel.Name A.Columns) nm <;> rfl
  · rw [applyDifference_modifyColumn]
    cases mapGet (mapBuild ColumnModel.Name A.Columns) nm <;> rfl
  · rw [applyDifference_dropColumn]
  · rw [applyDifference_addPrimaryKey]
  · rw [applyDifference_dropPrimaryKey]

/-- Column and index statements do not touch the primary key. -/
theorem applyDifference_pk_frame (A t : TableModel) (d : Difference)
    (h : d.dtype = AddColumn ∨ d.dtype = ModifyColumn ∨ d.dtype = DropColumn
      ∨ d.dtype = AddIndex ∨ d.dtype = DropIndex) :
    (applyDifference A t d).PrimaryKey = t.PrimaryKey := by
  obtain ⟨dt, nm, ds, sq⟩ := d
  rcases h with h | h | h | h | h <;> (dsimp only at h; subst h)
  · rw [applyDifference_addColumn]
    cases mapGet (mapBuild ColumnModel.Name A.Columns) nm <;> rfl
  · rw [applyDifference_modifyColumn]
    cases mapGet (mapBuild ColumnModel.Name A.Columns) nm <;> rfl
  · rw [applyDifference_dropColumn]
  · rw [applyDifference_addIndex]
    cases mapGet (mapBuild IndexModel.Name A.Indexes) nm <;> rfl
  · rw [applyDifference_dropIndex]

/-- Applying a plan of index/primary-key statements leaves the columns. -/
theorem applyPlan_columns_frame (A : TableModel) :
    ∀ (ds : List Difference) (t : TableModel),
      (∀ d ∈ ds, d.dtype = AddIndex ∨ d.dtype = DropIndex ∨ d.dtype = AddPrimaryKey
        ∨ d.dtype = DropPrimaryKey) →
      (applyPlan A t ds).Columns = t.Columns
  | [], _, _ => rfl
  | d :: ds, t, h => by
    have hstep := applyDifference_columns_frame A t d (h d (List.mem_cons_self d ds))
    have ih := applyPlan_columns_frame A ds (applyDifference A t d)
      (fun x hx => h x (List.mem_cons_of_mem d hx))
    exact ih.trans hstep

/-- Applying a plan of column/primary-key statements leaves the indexes. -/
theorem applyPlan_indexes_frame (A : TableModel) :
    ∀ (ds : List Difference) (t : TableModel),
      (∀ d ∈ ds, d.dtype = AddColumn ∨ d.dtype = ModifyColumn ∨ d.dtype = DropColumn
        ∨ d.dtype = AddPrimaryKey ∨ d.dtype = DropPrimaryKey) →
      (applyPlan A t ds).Indexes = t.Indexes
  | [], _, _ => rfl
  | d :: ds, t, h => by
    have hstep := applyDifference_indexes_frame A t d (h d (List.mem_cons_self d ds))
    have ih := applyPlan_indexes_frame A ds (applyDifference A t d)
      (fun x hx => h x (List.mem_cons_of_mem d hx))
    exact ih.trans hstep

/-- Applying a plan of column/index statements leaves the primary key. -/
theorem applyPlan_pk_frame (A : TableModel) :
    ∀ (ds : List Difference) (t : TableModel),
      (∀ d ∈ ds, d.dtype = AddColumn ∨ d.dtype = ModifyColumn ∨ d.dtype = DropColumn
        ∨ d.dtype = AddIndex ∨ d.dtype = DropIndex) →
      (applyPlan A t ds).PrimaryKey = t.PrimaryKey
  | [], _, _ => rfl
  | d :: ds, t, h => by
    have hstep := applyDifference_pk_frame A t d (h d (List.mem_cons_self d ds))
    have ih := applyPlan_pk_frame A ds (applyDifference A t d)
      (fun x hx => h x (List.mem_cons_of_mem d hx))
    exact ih.trans hstep

/-- A replace-by-name map over columns none of which bear the name is the
identity. -/
theorem map_replace_skip (k : String) (sc : ColumnModel) (l : List ColumnModel)
    (h : ∀ x ∈ l, x.Name ≠ k) :
    l.map (fun c => if c.Name = k then sc else c) = l := by
  have hcongr : l.map (fun c => if c.Name = k then sc else c) = l.map id :=
    List.map_congr_left (fun x hx => if_neg (h x hx))
  rw [hcongr, List.map_id]

/-- A drop-by-name filter over columns none of which bear the name is the
identity. -/
theorem filter_ne_skip (k : String) (l : List ColumnModel)
    (h : ∀ x ∈ l, x.Name ≠ k) :
    l.filter (fun c => c.Name ≠ k) = l := by
  apply List.filter_eq_self.mpr
  intro a ha
  exact decide_eq_true (h a ha)

/-- Applying the `AddColumn` differences of the first `compareColumns`
loop appends exactly the selected source columns, in loop order. -/
theorem applyPlan_adds (A : TableModel) (tm : List (String × ColumnModel)) :
    ∀ (l : List (String × ColumnModel)) (t : TableModel),
      (∀ p ∈ l, mapGet (mapBuild ColumnModel.Name A.Columns) p.1 = some p.2) →
      applyPlan A t (l.filterMap (colAddDiff A.Name tm))
        = { t with Columns := t.Columns
            ++ (l.filterMap fun p =>
              if (mapGet tm p.1).isSome then none else some p.2) }
  | [], t, _ => by simp [applyPlan]
  | p :: l, t, h => by
    by_cases hc : (mapGet tm p.1).isSome
    · have hop : colAddDiff A.Name tm p = none := by
        unfold colAddDiff
        rw [if_pos hc]
      rw [List.filterMap_cons, hop, List.filterMap_cons, if_pos hc,
        applyPlan_adds A tm l t (fun q hq => h q (List.mem_cons_of_mem p hq))]
    · have hop : colAddDiff A.Name tm p
          = some { dtype := AddColumn, Name := p.1
                   Description := "Add column '" ++ p.1 ++ "'"
                   SQL := generateAddColumnSQL A.Name p.2 } := by
        unfold colAddDiff
        rw [if_neg hc]
      rw [List.filterMap_cons, hop, List.filterMap_cons, if_neg hc]
      have hstep : applyPlan A t
          (({ dtype := AddColumn, Name := p.1
              Description := "Add column '" ++ p.1 ++ "'"
              SQL := generateAddColumnSQL A.Name p.2 } : Difference)
            :: l.filterMap (colAddDiff A.Name tm))
          = applyPlan A ({ t with Columns := t.Columns ++ [p.2] })
            (l.filterMap (colAddDiff A.Name tm)) := by
        show applyPlan A (applyDifference A t _) _ = _
        rw [applyDifference_addColumn, h p (List.mem_cons_self p l)]
      rw [hstep,
        applyPlan_adds A tm l _ (fun q hq => h q (List.mem_cons_of_mem p hq))]
      simp

/-- Applying the modify/drop differences of the second `compareColumns`
loop transforms exactly the columns the loop ranges over: a both-sides
column is replaced by the source definition when different and kept
otherwise, a target-only column is dropped; already-processed (`pre`) and
freshly added (`post`) columns are untouched. -/
theorem applyPlan_modsdrops (A : TableModel) :
    ∀ (cols pre post : List ColumnModel) (t : TableModel),
      t.Columns = pre ++ cols ++ post →
      (cols.map ColumnModel.Name).Nodup →
      (∀ c ∈ cols, ∀ x ∈ pre, x.Name ≠ c.Name) →
      (∀ c ∈ cols, ∀ x ∈ post, x.Name ≠ c.Name) →
      applyPlan A t ((cols.map (fun c => (c.Name, c))).filterMap
          (colModDropDiff A.Name (mapBuild ColumnModel.Name A.Columns)))
        = { t with Columns :=
            pre ++ cols.filterMap (colStep (mapBuild ColumnModel.Name A.Columns))
              ++ post }
  | [], pre, post, t, hcols, _, _, _ => by
    rw [List.map_nil, List.filterMap_nil, List.filterMap_nil,
      show applyPlan A t [] = t from rfl, ← hcols]
  | tc :: rest, pre, post, t, hcols, hnd, hpre, hpost => by
    have hnd' : tc.Name ∉ rest.map ColumnModel.Name
        ∧ (rest.map ColumnModel.Name).Nodup := by
      rw [List.map_cons, List.nodup_cons] at hnd
      exact hnd
    rw [List.map_cons, List.filterMap_cons, List.filterMap_cons]
    cases hsc : mapGet (mapBuild ColumnModel.Name A.Columns) tc.Name with
    | some sc =>
      have hscname : sc.Name = tc.Name :=
        mapGet_mapBuild_name ColumnModel.Name A.Columns tc.Name sc hsc
      by_cases hdiff : columnsAreDifferent sc tc
      · have hcolstep : colStep (mapBuild ColumnModel.Name A.Columns) tc = some sc := by
          unfold colStep
          rw [hsc]
          show some (if columnsAreDifferent sc tc then sc else tc) = some sc
          rw [if_pos hdiff]
        have hop : colModDropDiff A.Name (mapBuild ColumnModel.Name A.Columns)
            (tc.Name, tc)
            = some { dtype := ModifyColumn, Name := tc.Name
                     Description := "Modify column '" ++ tc.Name ++ "'"
                     SQL := generateModifyColumnSQL A.Name sc } := by
          unfold colModDropDiff
          dsimp only
          rw [hsc]
          show (if columnsAreDifferent sc tc then
              some ({ dtype := ModifyColumn, Name := tc.Name
                      Description := "Modify column '" ++ tc.Name ++ "'"
                      SQL := generateModifyColumnSQL A.Name sc } : Difference)
            else none)
            = some { dtype := ModifyColumn, Name := tc.Name
                     Description := "Modify column '" ++ tc.Name ++ "'"
                     SQL := generateModifyColumnSQL A.Name sc }
          rw [if_pos hdiff]
        rw [hop, hcolstep]
        have hlist : (pre ++ tc :: rest ++ post).map
            (fun c => if c.Name = tc.Name then sc else c)
            = pre ++ sc :: rest ++ post := by
          rw [List.map_append, List.map_append, List.map_cons]
          rw [map_replace_skip tc.Name sc pre
            (fun x hx hn => hpre tc (List.mem_cons_self tc rest) x hx hn)]
          rw [map_replace_skip tc.Name sc rest (fun x hx hn => hnd'.1 (by
            rw [← hn]
            exact List.mem_map.mpr ⟨x, hx, rfl⟩))]
          rw [map_replace_skip tc.Name sc post
            (fun x hx hn => hpost tc (List.mem_cons_self tc rest) x hx hn)]
          rw [if_pos rfl]
        have happ : applyDifference A t
            ⟨ModifyColumn, tc.Name, "Modify column '" ++ tc.Name ++ "'",
              generateModifyColumnSQL A.Name sc⟩
            = { t with Columns := pre ++ sc :: rest ++ post } := by
          rw [applyDifference_modifyColumn, hsc]
          show { t with Columns :=
              t.Columns.map (fun c => if c.Name = tc.Name then sc else c) }
            = { t with Columns := pre ++ sc :: rest ++ post }
          rw [hcols, hlist]
        show applyPlan A (applyDifference A t _) _ = _
        rw [happ, applyPlan_modsdrops A rest (pre ++ [sc]) post
          { t with Columns := pre ++ sc :: rest ++ post }
          (by simp)
          hnd'.2
          (by
            intro c hc x hx
            rw [List.mem_append] at hx
            rcases hx with hx | hx
            · exact hpre c (List.mem_cons_of_mem tc hc) x hx
            · rw [List.mem_singleton] at hx
              rw [hx, hscname]
              intro hn
              exact hnd'.1 (by rw [hn]; exact List.mem_map.mpr ⟨c, hc, rfl⟩))
          (fun c hc x hx => hpost c (List.mem_cons_of_mem tc hc) x hx)]
        simp
      · have hcolstep : colStep (mapBuild ColumnModel.Name A.Columns) tc = some tc := by
          unfold colStep
          rw [hsc]
          show some (if columnsAreDifferent sc tc then sc else tc) = some tc
          rw [if_neg hdiff]
        have hop : colModDropDiff A.Name (mapBuild ColumnModel.Name A.Columns)
            (tc.Name, tc) = none := by
          unfold colModDropDiff
          dsimp only
          rw [hsc]
          show (if columnsAreDifferent sc tc then
              some ({ dtype := ModifyColumn, Name := tc.Name
                      Description := "Modify column '" ++ tc.Name ++ "'"
                      SQL := generateModifyColumnSQL A.Name sc } : Difference)
            else none)
            = none
          rw [if_neg hdiff]
        rw [hop, hcolstep]
        show applyPlan A t _ = _
        rw [applyPlan_modsdrops A rest (pre ++ [tc]) post t
          (by rw [hcols]; simp)
          hnd'.2
          (by
            intro c hc x hx
            rw [List.mem_append] at hx
            rcases hx with hx | hx
            · exact hpre c (List.mem_cons_of_mem tc hc) x hx
            · rw [List.mem_singleton] at hx
              rw [hx]
              intro hn
              exact hnd'.1 (by rw [hn]; exact List.mem_map.mpr ⟨c, hc, rfl⟩))
          (fun c hc x hx => hpost c (List.mem_cons_of_mem tc hc) x hx)]
        simp
    | none =>
      have hcolstep : colStep (mapBuild ColumnModel.Name A.Columns) tc = none := by
        unfold colStep
        rw [hsc]
      have hop : colModDropDiff A.Name (mapBuild ColumnModel.Name A.Columns)
          (tc.Name, tc)
          = some { dtype := DropColumn, Name := tc.Name
                   Description := "Drop column '" ++ tc.Name ++ "'"
                   SQL := "ALTER TABLE `" ++ A.Name ++ "` DROP COLUMN `"
                     ++ tc.Name ++ "`" } := by
        unfold colModDropDiff
        dsimp only
        rw [hsc]
      rw [hop, hcolstep]
      have hlist : (pre ++ tc :: rest ++ post).filter (fun c => c.Name ≠ tc.Name)
          = pre ++ rest ++ post := by
        rw [List.filter_append, List.filter_append, List.filter_cons]
        rw [filter_ne_skip tc.Name pre
          (fun x hx hn => hpre tc (List.mem_cons_self tc rest) x hx hn)]
        rw [filter_ne_skip tc.Name rest (fun x hx hn => hnd'.1 (by
          rw [← hn]
          exact List.mem_map.mpr ⟨x, hx, rfl⟩))]
        rw [filter_ne_skip tc.Name post
          (fun x hx hn => hpost tc (List.mem_cons_self tc rest) x hx hn)]
        rw [if_neg (by simp)]
      have happ : applyDifference A t
          ⟨DropColumn, tc.Name, "Drop column '" ++ tc.Name ++ "'",
            "ALTER TABLE `" ++ A.Name ++ "` DROP COLUMN `" ++ tc.Name ++ "`"⟩
          = { t with Columns := pre ++ rest ++ post } := by
        rw [applyDifference_dropColumn, hcols, hlist]
      show applyPlan A (applyDifference A t _) _ = _
      rw [happ, applyPlan_modsdrops A rest pre post
        { t with Columns := pre ++ rest ++ post }
        rfl
        hnd'.2
        (fun c hc x hx => hpre c (List.mem_cons_of_mem tc hc) x hx)
        (fun c hc x hx => hpost c (List.mem_cons_of_mem tc hc) x hx)]

/-- Executing a concatenated difference list is sequential execution. -/
theorem applyPlan_append (A t : TableModel) (l1 l2 : List Difference) :
    applyPlan A t (l1 ++ l2) = applyPlan A (applyPlan A t l1) l2 := by
  unfold applyPlan
  rw [List.foldl_append]

/-- A failed Go map lookup means `find?` fails on the association list. -/
theorem mapGet_none_find {α : Type} (m : List (String × α)) (n : String)
    (h : mapGet m n = none) : m.find? (fun p => p.1 = n) = none := by
  unfold mapGet at h
  cases hf : m.find? (fun p => p.1 = n) with
  | none => rfl
  | some q => rw [hf] at h; cases h

/-- Finding by name through a name-preserving `filterMap` with distinct
names looks up the original element and maps it. -/
theorem find?_key_filterMap {α : Type} (key : α → String) (f : α → Option α)
    (hf : ∀ c x, f c = some x → key x = key c) (n : String) :
    ∀ l : List α, (l.map key).Nodup →
      (l.filterMap f).find? (fun x => key x = n)
        = (l.find? (fun x => key x = n)).bind f
  | [], _ => rfl
  | c :: l, hnd => by
    have hnd' : key c ∉ l.map key ∧ (l.map key).Nodup := by
      rw [List.map_cons, List.nodup_cons] at hnd
      exact hnd
    rw [List.filterMap_cons]
    by_cases hcn : key c = n
    · rw [List.find?_cons_of_pos _ (by simpa using hcn), Option.some_bind]
      cases hfc : f c with
      | some x =>
        show (x :: l.filterMap f).find? (fun y => key y = n) = some x
        rw [List.find?_cons_of_pos _ (by simpa using (hf c x hfc).trans hcn)]
      | none =>
        show (l.filterMap f).find? (fun y => key y = n) = none
        rw [List.find?_eq_none]
        intro x hx hxn
        rcases List.mem_filterMap.mp hx with ⟨c', hc', hfc'⟩
        refine hnd'.1 (List.mem_map.mpr ⟨c', hc', ?_⟩)
        rw [← hf c' x hfc', of_decide_eq_true hxn]
        exact hcn.symm
    · rw [List.find?_cons_of_neg _ (by simpa using hcn)]
      cases hfc : f c with
      | some x =>
        show (x :: l.filterMap f).find? (fun y => key y = n)
          = (l.find? (fun y => key y = n)).bind f
        rw [List.find?_cons_of_neg _ (by
          simpa using (show ¬ key x = n from fun h => hcn ((hf c x hfc) ▸ h)))]
        exact find?_key_filterMap key f hf n l hnd'.2
      | none =>
        show (l.filterMap f).find? (fun y => key y = n)
          = (l.find? (fun y => key y = n)).bind f
        exact find?_key_filterMap key f hf n l hnd'.2

/-- Finding by name through a `filter` with distinct names looks up the
original element and tests it. -/
theorem find?_key_filter {α : Type} (key : α → String) (q : α → Bool)
    (n : String) :
    ∀ l : List α, (l.map key).Nodup →
      (l.filter q).find? (fun x => key x = n)
        = (l.find? (fun x => key x = n)).bind
            (fun x => if q x then some x else none)
  | [], _ => rfl
  | c :: l, hnd => by
    have hnd' : key c ∉ l.map key ∧ (l.map key).Nodup := by
      rw [List.map_cons, List.nodup_cons] at hnd
      exact hnd
    rw [List.filter_cons]
    by_cases hcn : key c = n
    · by_cases hqc : q c
      · rw [if_pos hqc, List.find?_cons_of_pos _ (by simpa using hcn),
          List.find?_cons_of_pos _ (by simpa using hcn), Option.some_bind,
          if_pos hqc]
      · rw [if_neg hqc, List.find?_cons_of_pos _ (by simpa using hcn),
          Option.some_bind, if_neg hqc, List.find?_eq_none]
        intro x hx hxn
        refine hnd'.1 (List.mem_map.mpr ⟨x, List.mem_of_mem_filter hx, ?_⟩)
        rw [of_decide_eq_true hxn]
        exact hcn.symm
    · by_cases hqc : q c
      · rw [if_pos hqc, List.find?_cons_of_neg _ (by simpa using hcn),
          List.find?_cons_of_neg _ (by simpa using hcn)]
        exact find?_key_filter key q n l hnd'.2
      · rw [if_neg hqc, List.find?_cons_of_neg _ (by simpa using hcn)]
        exact find?_key_filter key q n l hnd'.2

/-- Over a keyed list with distinct keys holding an entry for the key, an
any-scan guarded by that key evaluates the guard at that entry alone. -/
theorem any_key_single {α : Type} (g : String × α → Bool) (n : String)
    (v : α) :
    ∀ l : List (String × α), (l.map Prod.fst).Nodup →
      l.find? (fun p => p.1 = n) = some (n, v) →
      l.any (fun p => g p && decide (p.1 = n)) = g (n, v)
  | [], _, hfind => by cases hfind
  | q :: l, hnd, hfind => by
    have hnd' : q.1 ∉ l.map Prod.fst ∧ (l.map Prod.fst).Nodup := by
      rw [List.map_cons, List.nodup_cons] at hnd
      exact hnd
    rw [List.any_cons]
    by_cases hq : q.1 = n
    · have hqe : q = (n, v) := by
        rw [List.find?_cons_of_pos _ (by simpa using hq)] at hfind
        exact Option.some_injective _ hfind
      have hrest : l.any (fun p => g p && decide (p.1 = n)) = false := by
        rw [List.any_eq_false]
        intro p hp hpq
        simp only [Bool.and_eq_true, decide_eq_true_eq] at hpq
        apply hnd'.1
        rw [hq]
        exact List.mem_map.mpr ⟨p, hp, hpq.2⟩
      rw [hrest, hqe]
      simp
    · rw [List.find?_cons_of_neg _ (by simpa using hq)] at hfind
      rw [any_key_single g n v l hnd'.2 hfind,
        show decide (q.1 = n) = false from decide_eq_false hq]
      simp

/-- Over a keyed list with no entry for the key, an any-scan guarded by
that key finds nothing. -/
theorem any_key_none {α : Type} (g : String × α → Bool) (n : String)
    (l : List (String × α)) (hfind : l.find? (fun p => p.1 = n) = none) :
    l.any (fun p => g p && decide (p.1 = n)) = false := by
  rw [List.any_eq_false]
  intro p hp hpq
  simp only [Bool.and_eq_true, decide_eq_true_eq] at hpq
  exact (List.find?_eq_none.mp hfind p hp) (by simpa using hpq.2)

/-- A mismatch-free positional scan of two equally long column sequences
makes them equal. -/
theorem zip_all_eq : ∀ (s t : List String), s.length = t.length →
    (s.zip t).any (fun p => decide (p.1 ≠ p.2)) = false → s = t
  | [], [], _, _ => rfl
  | [], _ :: _, h, _ => by cases h
  | _ :: _, [], h, _ => by cases h
  | a :: s, b :: t, h, hany => by
    rw [List.zip_cons_cons, List.any_cons, Bool.or_eq_false_iff] at hany
    have hab : a = b := by simpa using hany.1
    have hst : s = t := zip_all_eq s t (by simpa using h) hany.2
    rw [hab, hst]

/-- `eqNoKey` is reflexive. -/
theorem eqNoKey_refl (a : ColumnModel) : eqNoKey a a :=
  ⟨rfl, rfl, rfl, rfl, rfl, rfl⟩

/-- Two like-named columns the differ check accepts agree on every
compared catalog field (all but `ColumnKey`). -/
theorem columns_not_different_eq (a b : ColumnModel) (hn : a.Name = b.Name)
    (h : columnsAreDifferent a b = false) : eqNoKey a b := by
  unfold columnsAreDifferent at h
  by_cases h1 : a.DataType ≠ b.DataType ∨ a.IsNullable ≠ b.IsNullable
      ∨ a.Extra ≠ b.Extra
  · rw [if_pos h1] at h; cases h
  · rw [if_neg h1] at h
    push_neg at h1
    by_cases h2 : a.DefaultValue.isSome ≠ b.DefaultValue.isSome
    · rw [if_pos h2] at h; cases h
    · rw [if_neg h2] at h
      push_neg at h2
      by_cases h3 : a.DefaultValue.isSome ∧ b.DefaultValue.isSome
          ∧ a.DefaultValue ≠ b.DefaultValue
      · rw [if_pos h3] at h; cases h
      · rw [if_neg h3] at h
        by_cases h4 : a.OnUpdate.isSome ≠ b.OnUpdate.isSome
        · rw [if_pos h4] at h; cases h
        · rw [if_neg h4] at h
          push_neg at h4
          by_cases h5 : a.OnUpdate.isSome ∧ b.OnUpdate.isSome
              ∧ a.OnUpdate ≠ b.OnUpdate
          · rw [if_pos h5] at h; cases h
          · push_neg at h3
            push_neg at h5
            have hdv : a.DefaultValue = b.DefaultValue := by
              cases ha : a.DefaultValue with
              | none =>
                cases hb : b.DefaultValue with
                | none => rfl
                | some y => rw [ha, hb] at h2; simp at h2
              | some x =>
                cases hb : b.DefaultValue with
                | none => rw [ha, hb] at h2; simp at h2
                | some y =>
                  rw [← ha, ← hb]
                  exact h3 (by rw [ha]; rfl) (by rw [hb]; rfl)
            have hou : a.OnUpdate = b.OnUpdate := by
              cases ha : a.OnUpdate with
              | none =>
                cases hb : b.OnUpdate with
                | none => rfl
                | some y => rw [ha, hb] at h4; simp at h4
              | some x =>
                cases hb : b.OnUpdate with
                | none => rw [ha, hb] at h4; simp at h4
                | some y =>
                  rw [← ha, ← hb]
                  exact h5 (by rw [ha]; rfl) (by rw [hb]; rfl)
            exact ⟨hn, h1.1, h1.2.1, hdv, h1.2.2, hou⟩

/-- Two like-named indexes the differ check accepts are equal. -/
theorem indexes_not_different_eq (a b : IndexModel) (hn : a.Name = b.Name)
    (h : indexesAreDifferent a b = false) : a = b := by
  unfold indexesAreDifferent at h
  by_cases h1 : a.NonUnique ≠ b.NonUnique ∨ a.IndexType ≠ b.IndexType
  · rw [if_pos h1] at h; cases h
  · rw [if_neg h1] at h
    push_neg at h1
    by_cases h2 : a.Columns.length ≠ b.Columns.length
    · rw [if_pos h2] at h; cases h
    · rw [if_neg h2] at h
      push_neg at h2
      have hcols : a.Columns = b.Columns := zip_all_eq _ _ h2 h
      obtain ⟨an, ac, au, ay⟩ := a
      obtain ⟨bn, bc, bu, by'⟩ := b
      rw [IndexModel.mk.injEq]
      exact ⟨hn, hcols, h1.1, h1.2⟩

/-- Two primary keys the differ check accepts have equal column
sequences. -/
theorem pks_not_different_cols (a b : PrimaryKeyModel)
    (h : primaryKeysAreDifferent a b = false) : a.Columns = b.Columns := by
  unfold primaryKeysAreDifferent at h
  by_cases h2 : a.Columns.length ≠ b.Columns.length
  · rw [if_pos h2] at h; cases h
  · rw [if_neg h2] at h
    push_neg at h2
    exact zip_all_eq _ _ h2 h

/-- A non-dropping source entry does not change the kept predicate. -/
theorem idxKept_cons_false (tim : List (String × IndexModel))
    (q : String × IndexModel) (l : List (String × IndexModel)) (i : IndexModel)
    (hdrop : chunkDrops tim q = false) :
    idxKept tim (q :: l) i = idxKept tim l i := by
  unfold idxKept
  rw [List.any_cons, hdrop]
  simp

/-- A dropping source entry additionally excludes its name. -/
theorem idxKept_cons_true (tim : List (String × IndexModel))
    (q : String × IndexModel) (l : List (String × IndexModel)) (i : IndexModel)
    (hdrop : chunkDrops tim q = true) :
    idxKept tim (q :: l) i = (idxKept tim l i && decide (i.Name ≠ q.1)) := by
  unfold idxKept
  rw [List.any_cons, hdrop]
  by_cases hiq : q.1 = i.Name
  · rw [show decide (q.1 = i.Name) = true from decide_eq_true hiq,
      show decide (i.Name ≠ q.1) = false from
        decide_eq_false (fun h => h hiq.symm)]
    simp
  · rw [show decide (q.1 = i.Name) = false from decide_eq_false hiq,
      show decide (i.Name ≠ q.1) = true from
        decide_eq_true (fun h => hiq h.symm)]
    simp

/-- A target entry present in the source map never drops anything. -/
theorem idxKept2_cons_true (sim : List (String × IndexModel))
    (q : String × IndexModel) (l : List (String × IndexModel)) (i : IndexModel)
    (hc : (mapGet sim q.1).isSome = true) :
    idxKept2 sim (q :: l) i = idxKept2 sim l i := by
  unfold idxKept2
  rw [List.any_cons, hc]
  simp

/-- A target entry absent from the source map additionally excludes its
name. -/
theorem idxKept2_cons_false (sim : List (String × IndexModel))
    (q : String × IndexModel) (l : List (String × IndexModel)) (i : IndexModel)
    (hc : (mapGet sim q.1).isSome = false) :
    idxKept2 sim (q :: l) i = (idxKept2 sim l i && decide (i.Name ≠ q.1)) := by
  unfold idxKept2
  rw [List.any_cons, hc]
  by_cases hiq : q.1 = i.Name
  · rw [show decide (q.1 = i.Name) = true from decide_eq_true hiq,
      show decide (i.Name ≠ q.1) = false from
        decide_eq_false (fun h => h hiq.symm)]
    simp
  · rw [show decide (q.1 = i.Name) = false from decide_eq_false hiq,
      show decide (i.Name ≠ q.1) = true from
        decide_eq_true (fun h => hiq h.symm)]
    simp

/-- Executing the chunks of the first `compareIndexes` loop drops each
recreated name from the target list and appends the added or recreated
source indexes in loop order. -/
theorem applyPlan_idxchunks (A : TableModel) (tim : List (String × IndexModel)) :
    ∀ (l : List (String × IndexModel)) (t : TableModel),
      (∀ p ∈ l, mapGet (mapBuild IndexModel.Name A.Indexes) p.1 = some p.2) →
      (∀ p ∈ l, p.2.Name = p.1) →
      (l.map Prod.fst).Nodup →
      applyPlan A t (l.flatMap (indexChunk A.Name tim))
        = { t with Indexes := t.Indexes.filter (idxKept tim l)
            ++ l.filterMap (chunkAdd tim) }
  | [], t, _, _, _ => by
    rw [List.flatMap_nil, List.filterMap_nil, List.append_nil,
      show t.Indexes.filter (idxKept tim []) = t.Indexes from
        List.filter_eq_self.mpr (fun a _ => rfl)]
    rfl
  | q :: l, t, hget, hname, hnd => by
    have hnd' : q.1 ∉ l.map Prod.fst ∧ (l.map Prod.fst).Nodup := by
      rw [List.map_cons, List.nodup_cons] at hnd
      exact hnd
    have hget' := fun p hp => hget p (List.mem_cons_of_mem q hp)
    have hname' := fun p hp => hname p (List.mem_cons_of_mem q hp)
    have hfq : l.find? (fun p => p.1 = q.2.Name) = none := by
      rw [List.find?_eq_none]
      intro p hp hpq
      apply hnd'.1
      rw [← hname q (List.mem_cons_self q l)]
      exact List.mem_map.mpr ⟨p, hp, of_decide_eq_true hpq⟩
    have hq2 : idxKept tim l q.2 = true := by
      unfold idxKept
      rw [any_key_none (chunkDrops tim) q.2.Name l hfq]
      rfl
    rw [List.flatMap_cons, applyPlan_append]
    cases hm : mapGet tim q.1 with
    | none =>
      have hdrop : chunkDrops tim q = false := by
        unfold chunkDrops
        rw [hm]
      have hadd : chunkAdd tim q = some q.2 := by
        unfold chunkAdd
        rw [hm]
      have happly : applyPlan A t (indexChunk A.Name tim q)
          = { t with Indexes := t.Indexes ++ [q.2] } := by
        unfold indexChunk
        rw [hm]
        show applyDifference A t
            { dtype := AddIndex, Name := q.1
              Description := "Add index '" ++ q.1 ++ "'"
              SQL := generateAddIndexSQL A.Name q.2 }
          = { t with Indexes := t.Indexes ++ [q.2] }
        rw [applyDifference_addIndex, hget q (List.mem_cons_self q l)]
      rw [happly, applyPlan_idxchunks A tim l _ hget' hname' hnd'.2]
      show ({ t with Indexes := (t.Indexes ++ [q.2]).filter (idxKept tim l)
                  ++ l.filterMap (chunkAdd tim) } : TableModel) = _
      rw [List.filter_append, List.filter_cons, if_pos hq2, List.filter_nil]
      have hcg : t.Indexes.filter (idxKept tim l)
          = t.Indexes.filter (idxKept tim (q :: l)) :=
        List.filter_congr (fun i _ => (idxKept_cons_false tim q l i hdrop).symm)
      rw [hcg, List.filterMap_cons, hadd]
      show ({ t with Indexes := (t.Indexes.filter (idxKept tim (q :: l)) ++ [q.2])
                  ++ l.filterMap (chunkAdd tim) } : TableModel)
        = { t with Indexes := t.Indexes.filter (idxKept tim (q :: l))
              ++ (q.2 :: l.filterMap (chunkAdd tim)) }
      rw [List.append_assoc, List.singleton_append]
    | some ti =>
      by_cases hdiff : indexesAreDifferent q.2 ti
      · have hdrop : chunkDrops tim q = true := by
          unfold chunkDrops
          rw [hm]
          exact hdiff
        have hadd : chunkAdd tim q = some q.2 := by
          unfold chunkAdd
          rw [hm]
          show (if indexesAreDifferent q.2 ti then some q.2 else none) = some q.2
          rw [if_pos hdiff]
        have happly : applyPlan A t (indexChunk A.Name tim q)
            = { t with Indexes :=
                (t.Indexes.filter (fun i => i.Name ≠ q.1)) ++ [q.2] } := by
          unfold indexChunk
          rw [hm]
          show applyPlan A t (if indexesAreDifferent q.2 ti then _ else _) = _
          rw [if_pos hdiff]
          show applyDifference A
              (applyDifference A t
                { dtype := DropIndex, Name := q.1
                  Description := "Drop index '" ++ q.1 ++ "'"
                  SQL := dropIndexSQL A.Name q.1 })
              { dtype := AddIndex, Name := q.1
                Description := "Recreate index '" ++ q.1 ++ "'"
                SQL := generateAddIndexSQL A.Name q.2 }
            = { t with Indexes :=
                (t.Indexes.filter (fun i => i.Name ≠ q.1)) ++ [q.2] }
          rw [applyDifference_dropIndex, applyDifference_addIndex,
            hget q (List.mem_cons_self q l)]
        rw [happly, applyPlan_idxchunks A tim l _ hget' hname' hnd'.2]
        show ({ t with Indexes := ((t.Indexes.filter (fun i => i.Name ≠ q.1))
                      ++ [q.2]).filter (idxKept tim l)
                    ++ l.filterMap (chunkAdd tim) } : TableModel) = _
        rw [List.filter_append, List.filter_cons, if_pos hq2, List.filter_nil,
          List.filter_filter]
        have hcg : t.Indexes.filter
            (fun i => idxKept tim l i && decide (i.Name ≠ q.1))
            = t.Indexes.filter (idxKept tim (q :: l)) :=
          List.filter_congr (fun i _ => (idxKept_cons_true tim q l i hdrop).symm)
        rw [hcg, List.filterMap_cons, hadd]
        show ({ t with Indexes := (t.Indexes.filter (idxKept tim (q :: l)) ++ [q.2])
                    ++ l.filterMap (chunkAdd tim) } : TableModel)
          = { t with Indexes := t.Indexes.filter (idxKept tim (q :: l))
                ++ (q.2 :: l.filterMap (chunkAdd tim)) }
        rw [List.append_assoc, List.singleton_append]
      · have hdrop : chunkDrops tim q = false := by
          unfold chunkDrops
          rw [hm]
          exact Bool.eq_false_iff.mpr hdiff
        have hadd : chunkAdd tim q = none := by
          unfold chunkAdd
          rw [hm]
          show (if indexesAreDifferent q.2 ti then some q.2 else none) = none
          rw [if_neg hdiff]
        have hchunk : indexChunk A.Name tim q = [] := by
          unfold indexChunk
          rw [hm]
          show (if indexesAreDifferent q.2 ti then _ else _) = _
          rw [if_neg hdiff]
        rw [hchunk]
        show applyPlan A t (l.flatMap (indexChunk A.Name tim)) = _
        rw [applyPlan_idxchunks A tim l t hget' hname' hnd'.2]
        have hcg : t.Indexes.filter (idxKept tim l)
            = t.Indexes.filter (idxKept tim (q :: l)) :=
          List.filter_congr (fun i _ => (idxKept_cons_false tim q l i hdrop).symm)
        rw [hcg, List.filterMap_cons, hadd]

/-- Executing the target-only `DropIndex` statements of the second
`compareIndexes` loop filters out exactly the listed names absent from
the source map. -/
theorem applyPlan_idxdrops (A : TableModel) (sim : List (String × IndexModel)) :
    ∀ (l : List (String × IndexModel)) (t : TableModel),
      applyPlan A t (l.filterMap (idxDropDiff A.Name sim))
        = { t with Indexes := t.Indexes.filter (idxKept2 sim l) }
  | [], t => by
    rw [List.filterMap_nil,
      show t.Indexes.filter (idxKept2 sim []) = t.Indexes from
        List.filter_eq_self.mpr (fun a _ => rfl)]
    rfl
  | q :: l, t => by
    by_cases hc : (mapGet sim q.1).isSome
    · have hop : idxDropDiff A.Name sim q = none := by
        unfold idxDropDiff
        rw [if_pos hc]
      rw [List.filterMap_cons, hop, applyPlan_idxdrops A sim l t]
      have hcg : t.Indexes.filter (idxKept2 sim l)
          = t.Indexes.filter (idxKept2 sim (q :: l)) :=
        List.filter_congr (fun i _ => (idxKept2_cons_true sim q l i hc).symm)
      rw [hcg]
    · have hcf : (mapGet sim q.1).isSome = false := Bool.eq_false_iff.mpr hc
      have hop : idxDropDiff A.Name sim q
          = some { dtype := DropIndex, Name := q.1
                   Description := "Drop index '" ++ q.1 ++ "'"
                   SQL := dropIndexSQL A.Name q.1 } := by
        unfold idxDropDiff
        rw [if_neg hc]
      rw [List.filterMap_cons, hop]
      show applyPlan A
          (applyDifference A t
            { dtype := DropIndex, Name := q.1
              Description := "Drop index '" ++ q.1 ++ "'"
              SQL := dropIndexSQL A.Name q.1 })
          (l.filterMap (idxDropDiff A.Name sim))
        = { t with Indexes := t.Indexes.filter (idxKept2 sim (q :: l)) }
      rw [applyDifference_dropIndex, applyPlan_idxdrops A sim l _]
      congr 1
      show (t.Indexes.filter (fun i => i.Name ≠ q.1)).filter (idxKept2 sim l)
        = t.Indexes.filter (idxKept2 sim (q :: l))
      rw [List.filter_filter]
      exact List.filter_congr (fun i _ => (idxKept2_cons_false sim q l i hcf).symm)

/-- Executing the primary-key differences installs the source key's column
sequence (the key's name is neither compared nor rendered). -/
theorem applyPlan_pk_apply (A B t : TableModel)
    (ht : t.PrimaryKey = B.PrimaryKey) :
    (applyPlan A t (comparePrimaryKeys A B)).PrimaryKey.map PrimaryKeyModel.Columns
      = A.PrimaryKey.map PrimaryKeyModel.Columns := by
  cases hA : A.PrimaryKey with
  | none =>
    cases hB : B.PrimaryKey with
    | none =>
      have hcp : comparePrimaryKeys A B = [] := by
        unfold comparePrimaryKeys
        rw [hA, hB]
      rw [hcp]
      show t.PrimaryKey.map PrimaryKeyModel.Columns = _
      rw [ht, hB]
    | some tp =>
      have hcp : comparePrimaryKeys A B
          = [{ dtype := DropPrimaryKey, Name := "PRIMARY"
               Description := "Drop primary key"
               SQL := "ALTER TABLE `" ++ A.Name ++ "` DROP PRIMARY KEY" }] := by
        unfold comparePrimaryKeys
        rw [hA, hB]
      rw [hcp]
      show (applyDifference A t
          { dtype := DropPrimaryKey, Name := "PRIMARY"
            Description := "Drop primary key"
            SQL := "ALTER TABLE `" ++ A.Name ++ "` DROP PRIMARY KEY"
            }).PrimaryKey.map PrimaryKeyModel.Columns
        = Option.map PrimaryKeyModel.Columns none
      rw [applyDifference_dropPrimaryKey]
  | some sp =>
    cases hB : B.PrimaryKey with
    | none =>
      have hcp : comparePrimaryKeys A B
          = [{ dtype := AddPrimaryKey, Name := "PRIMARY"
               Description := "Add primary key"
               SQL := generateAddPrimaryKeySQL A.Name sp }] := by
        unfold comparePrimaryKeys
        rw [hA, hB]
      rw [hcp]
      show (applyDifference A t
          { dtype := AddPrimaryKey, Name := "PRIMARY"
            Description := "Add primary key"
            SQL := generateAddPrimaryKeySQL A.Name sp
            }).PrimaryKey.map PrimaryKeyModel.Columns
        = Option.map PrimaryKeyModel.Columns (some sp)
      rw [applyDifference_addPrimaryKey, hA]
    | some tp =>
      by_cases hdiff : primaryKeysAreDifferent sp tp
      · have hcp : comparePrimaryKeys A B
            = [{ dtype := DropPrimaryKey, Name := "PRIMARY"
                 Description := "Drop existing primary key"
                 SQL := "ALTER TABLE `" ++ A.Name ++ "` DROP PRIMARY KEY" },
               { dtype := AddPrimaryKey, Name := "PRIMARY"
                 Description := "Add new primary key"
                 SQL := generateAddPrimaryKeySQL A.Name sp }] := by
          unfold comparePrimaryKeys
          rw [hA, hB]
          show (if primaryKeysAreDifferent sp tp then _ else _) = _
          rw [if_pos hdiff]
        rw [hcp]
        show (applyDifference A
            (applyDifference A t
              { dtype := DropPrimaryKey, Name := "PRIMARY"
                Description := "Drop existing primary key"
                SQL := "ALTER TABLE `" ++ A.Name ++ "` DROP PRIMARY KEY" })
            { dtype := AddPrimaryKey, Name := "PRIMARY"
              Description := "Add new primary key"
              SQL := generateAddPrimaryKeySQL A.Name sp
              }).PrimaryKey.map PrimaryKeyModel.Columns
          = Option.map PrimaryKeyModel.Columns (some sp)
        rw [applyDifference_addPrimaryKey, hA]
      · have hcp : comparePrimaryKeys A B = [] := by
          unfold comparePrimaryKeys
          rw [hA, hB]
          show (if primaryKeysAreDifferent sp tp then _ else _) = _
          rw [if_neg hdiff]
        rw [hcp]
        show t.PrimaryKey.map PrimaryKeyModel.Columns = _
        rw [ht, hB]
        have hcols : sp.Columns = tp.Columns :=
          pks_not_different_cols sp tp (Bool.eq_false_iff.mpr hdiff)
        show some tp.Columns = some sp.Columns
        rw [hcols]

/-- Executing the whole column plan of `compareColumns` against the target
yields the target columns transformed in place (modified or dropped)
followed by the appended source-only columns. -/
theorem applyPlan_compareColumns (A B : TableModel)
    (hAc : (A.Columns.map ColumnModel.Name).Nodup)
    (hBc : (B.Columns.map ColumnModel.Name).Nodup) :
    applyPlan A B (compareColumns A B)
      = { B with Columns :=
          B.Columns.filterMap (colStep (mapBuild ColumnModel.Name A.Columns))
            ++ A.Columns.filterMap (colAdd (mapBuild ColumnModel.Name B.Columns)) } := by
  have hccdef : compareColumns A B
      = (mapBuild ColumnModel.Name A.Columns).filterMap
          (colAddDiff A.Name (mapBuild ColumnModel.Name B.Columns))
        ++ (mapBuild ColumnModel.Name B.Columns).filterMap
          (colModDropDiff A.Name (mapBuild ColumnModel.Name A.Columns)) := rfl
  have hsm : ∀ p ∈ mapBuild ColumnModel.Name A.Columns,
      mapGet (mapBuild ColumnModel.Name A.Columns) p.1 = some p.2 :=
    fun p hp => mapGet_of_mem _ (mapBuild_keys_nodup _ _) p hp
  have hadds := applyPlan_adds A (mapBuild ColumnModel.Name B.Columns)
    (mapBuild ColumnModel.Name A.Columns) B hsm
  have haddform : ((mapBuild ColumnModel.Name A.Columns).filterMap fun p =>
      if (mapGet (mapBuild ColumnModel.Name B.Columns) p.1).isSome then none
      else some p.2)
      = A.Columns.filterMap (colAdd (mapBuild ColumnModel.Name B.Columns)) := by
    rw [mapBuild_eq_pairify ColumnModel.Name A.Columns hAc, List.filterMap_map]
    rfl
  have hmdplan : (mapBuild ColumnModel.Name B.Columns).filterMap
      (colModDropDiff A.Name (mapBuild ColumnModel.Name A.Columns))
      = (B.Columns.map (fun c => (c.Name, c))).filterMap
        (colModDropDiff A.Name (mapBuild ColumnModel.Name A.Columns)) := by
    rw [mapBuild_eq_pairify ColumnModel.Name B.Columns hBc]
  have hcols1 : ({ B with Columns := B.Columns
      ++ A.Columns.filterMap (colAdd (mapBuild ColumnModel.Name B.Columns)) } :
        TableModel).Columns
      = [] ++ B.Columns
        ++ A.Columns.filterMap (colAdd (mapBuild ColumnModel.Name B.Columns)) := by
    rw [List.nil_append]
  have hpre : ∀ c ∈ B.Columns, ∀ x ∈ ([] : List ColumnModel), x.Name ≠ c.Name :=
    fun c _ x hx => absurd hx (List.not_mem_nil x)
  have hpost : ∀ c ∈ B.Columns,
      ∀ x ∈ A.Columns.filterMap (colAdd (mapBuild ColumnModel.Name B.Columns)),
      x.Name ≠ c.Name := by
    intro c hc x hx hn
    rcases List.mem_filterMap.mp hx with ⟨a, ha, hfa⟩
    unfold colAdd at hfa
    by_cases hz : (mapGet (mapBuild ColumnModel.Name B.Columns) a.Name).isSome
    · rw [if_pos hz] at hfa
      cases hfa
    · rw [if_neg hz] at hfa
      apply hz
      rw [← Option.some_injective _ hfa] at hn
      rw [hn, mapGet_mapBuild_nodup ColumnModel.Name B.Columns hBc,
        List.find?_isSome]
      exact ⟨c, hc, by simp⟩
  rw [hccdef, applyPlan_append, hadds, haddform, hmdplan,
    applyPlan_modsdrops A B.Columns []
      (A.Columns.filterMap (colAdd (mapBuild ColumnModel.Name B.Columns)))
      _ hcols1 hBc hpre hpost]
  congr 1

/-- `chunkAddM` only ever returns the index it was given. -/
theorem chunkAddM_name (tim : List (String × IndexModel)) :
    ∀ c x, chunkAddM tim c = some x → x.Name = c.Name := by
  intro c x h
  unfold chunkAddM chunkAdd at h
  dsimp only at h
  cases hm : mapGet tim c.Name with
  | none =>
    rw [hm] at h
    have h' : some c = some x := h
    rw [← Option.some_injective _ h']
  | some ti =>
    rw [hm] at h
    have h' : (if indexesAreDifferent c ti then some c else none) = some x := h
    by_cases hdiff : indexesAreDifferent c ti
    · rw [if_pos hdiff] at h'
      rw [← Option.some_injective _ h']
    · rw [if_neg hdiff] at h'
      cases h'

/-- C4 (amended).  Diffing source `A` against target `B` with `Compare`
and executing the emitted DDL statements in list order against `B`
converges exactly up to what the differ checks, assuming distinct column
and index names on both sides: afterwards every column name resolves on
both snapshots to the same definition up to `ColumnKey` (the one field
`columnsAreDifferent` never compares), every index name resolves to the
same index, and the primary key carries the source's column sequence (its
name is neither compared nor rendered).  Structural equality of the
snapshots does not hold in general (see the counterexample: an added
column is appended at the end, not restored to its source position). -/
theorem compare_apply_converges (A B : TableModel)
    (hAc : (A.Columns.map ColumnModel.Name).Nodup)
    (hBc : (B.Columns.map ColumnModel.Name).Nodup)
    (hAi : (A.Indexes.map IndexModel.Name).Nodup)
    (hBi : (B.Indexes.map IndexModel.Name).Nodup) :
    (∀ n, optEqNoKey (colByName A.Columns n)
        (colByName (applyPlan A B (Compare A B).Differences).Columns n))
    ∧ (∀ n, idxByName (applyPlan A B (Compare A B).Differences).Indexes n
        = idxByName A.Indexes n)
    ∧ (applyPlan A B (Compare A B).Differences).PrimaryKey.map
        PrimaryKeyModel.Columns
      = A.PrimaryKey.map PrimaryKeyModel.Columns := by
  have hplan : (Compare A B).Differences
      = compareColumns A B ++ compareIndexes A B ++ comparePrimaryKeys A B := rfl
  have hsplit : applyPlan A B (Compare A B).Differences
      = applyPlan A (applyPlan A (applyPlan A B (compareColumns A B))
          (compareIndexes A B)) (comparePrimaryKeys A B) := by
    rw [hplan, applyPlan_append, applyPlan_append]
  have hc1 : (applyPlan A B (compareColumns A B)).Columns
      = B.Columns.filterMap (colStep (mapBuild ColumnModel.Name A.Columns))
        ++ A.Columns.filterMap (colAdd (mapBuild ColumnModel.Name B.Columns)) := by
    rw [applyPlan_compareColumns A B hAc hBc]
  have hi1 : (applyPlan A B (compareColumns A B)).Indexes = B.Indexes :=
    applyPlan_indexes_frame A _ B (fun d hd => by
      rcases compareColumns_dtype A B d hd with h | h | h
      exacts [Or.inl h, Or.inr (Or.inl h), Or.inr (Or.inr (Or.inl h))])
  have hp1 : (applyPlan A B (compareColumns A B)).PrimaryKey = B.PrimaryKey :=
    applyPlan_pk_frame A _ B (fun d hd => by
      rcases compareColumns_dtype A B d hd with h | h | h
      exacts [Or.inl h, Or.inr (Or.inl h), Or.inr (Or.inr (Or.inl h))])
  have hci : compareIndexes A B
      = (mapBuild IndexModel.Name A.Indexes).flatMap
          (indexChunk A.Name (mapBuild IndexModel.Name B.Indexes))
        ++ (mapBuild IndexModel.Name B.Indexes).filterMap
          (idxDropDiff A.Name (mapBuild IndexModel.Name A.Indexes)) := rfl
  have hsmI : ∀ p ∈ mapBuild IndexModel.Name A.Indexes,
      mapGet (mapBuild IndexModel.Name A.Indexes) p.1 = some p.2 :=
    fun p hp => mapGet_of_mem _ (mapBuild_keys_nodup _ _) p hp
  have h2 : ∀ t : TableModel,
      (applyPlan A t (compareIndexes A B)).Indexes
      = (t.Indexes.filter (idxKept (mapBuild IndexModel.Name B.Indexes)
            (mapBuild IndexModel.Name A.Indexes))
          ++ (mapBuild IndexModel.Name A.Indexes).filterMap
            (chunkAdd (mapBuild IndexModel.Name B.Indexes))).filter
        (idxKept2 (mapBuild IndexModel.Name A.Indexes)
          (mapBuild IndexModel.Name B.Indexes)) := by
    intro t
    rw [hci, applyPlan_append,
      applyPlan_idxchunks A (mapBuild IndexModel.Name B.Indexes)
        (mapBuild IndexModel.Name A.Indexes) t hsmI
        (mapBuild_entry_key IndexModel.Name A.Indexes) (mapBuild_keys_nodup _ _),
      applyPlan_idxdrops A (mapBuild IndexModel.Name A.Indexes)
        (mapBuild IndexModel.Name B.Indexes)]
  have hc2 : ∀ t, (applyPlan A t (compareIndexes A B)).Columns = t.Columns :=
    fun t => applyPlan_columns_frame A _ t (fun d hd => by
      rcases compareIndexes_dtype A B d hd with h | h
      exacts [Or.inl h, Or.inr (Or.inl h)])
  have hp2 : ∀ t, (applyPlan A t (compareIndexes A B)).PrimaryKey = t.PrimaryKey :=
    fun t => applyPlan_pk_frame A _ t (fun d hd => by
      rcases compareIndexes_dtype A B d hd with h | h
      exacts [Or.inr (Or.inr (Or.inr (Or.inl h))),
        Or.inr (Or.inr (Or.inr (Or.inr h)))])
  have hc3 : ∀ t, (applyPlan A t (comparePrimaryKeys A B)).Columns = t.Columns :=
    fun t => applyPlan_columns_frame A _ t (fun d hd => by
      rcases comparePrimaryKeys_dtype A B d hd with h | h
      exacts [Or.inr (Or.inr (Or.inl h)), Or.inr (Or.inr (Or.inr h))])
  have hi3 : ∀ t, (applyPlan A t (comparePrimaryKeys A B)).Indexes = t.Indexes :=
    fun t => applyPlan_indexes_frame A _ t (fun d hd => by
      rcases comparePrimaryKeys_dtype A B d hd with h | h
      exacts [Or.inr (Or.inr (Or.inr (Or.inl h))),
        Or.inr (Or.inr (Or.inr (Or.inr h)))])
  refine ⟨?_, ?_, ?_⟩
  · intro n
    have hstepname : ∀ c x,
        colStep (mapBuild ColumnModel.Name A.Columns) c = some x →
        x.Name = c.Name := by
      intro c x h
      unfold colStep at h
      cases hm : mapGet (mapBuild ColumnModel.Name A.Columns) c.Name with
      | none =>
        rw [hm] at h
        have h' : (none : Option ColumnModel) = some x := h
        cases h'
      | some sc =>
        rw [hm] at h
        have h' : some (if columnsAreDifferent sc c then sc else c) = some x := h
        have hscn : sc.Name = c.Name :=
          mapGet_mapBuild_name ColumnModel.Name A.Columns c.Name sc hm
        by_cases hdiff : columnsAreDifferent sc c
        · rw [if_pos hdiff] at h'
          rw [← Option.some_injective _ h']
          exact hscn
        · rw [if_neg hdiff] at h'
          rw [← Option.some_injective _ h']
    have haddname : ∀ c x,
        colAdd (mapBuild ColumnModel.Name B.Columns) c = some x →
        x.Name = c.Name := by
      intro c x h
      unfold colAdd at h
      by_cases hz : (mapGet (mapBuild ColumnModel.Name B.Columns) c.Name).isSome
      · rw [if_pos hz] at h
        cases h
      · rw [if_neg hz] at h
        rw [← Option.some_injective _ h]
    have hRc : (applyPlan A B (Compare A B).Differences).Columns
        = B.Columns.filterMap (colStep (mapBuild ColumnModel.Name A.Columns))
          ++ A.Columns.filterMap (colAdd (mapBuild ColumnModel.Name B.Columns)) := by
      rw [hsplit, hc3, hc2, hc1]
    rw [hRc]
    unfold colByName
    rw [List.find?_append,
      find?_key_filterMap ColumnModel.Name
        (colStep (mapBuild ColumnModel.Name A.Columns)) hstepname n B.Columns hBc,
      find?_key_filterMap ColumnModel.Name
        (colAdd (mapBuild ColumnModel.Name B.Columns)) haddname n A.Columns hAc]
    cases hA2 : A.Columns.find? (fun c => c.Name = n) with
    | none =>
      cases hB2 : B.Columns.find? (fun c => c.Name = n) with
      | none => exact True.intro
      | some b =>
        have hbn : b.Name = n := by simpa using List.find?_some hB2
        have hsmn : mapGet (mapBuild ColumnModel.Name A.Columns) b.Name
            = none := by
          rw [mapGet_mapBuild_nodup ColumnModel.Name A.Columns hAc, hbn]
          exact hA2
        have hstep : colStep (mapBuild ColumnModel.Name A.Columns) b = none := by
          unfold colStep
          rw [hsmn]
        show optEqNoKey none
          ((colStep (mapBuild ColumnModel.Name A.Columns) b).or none)
        rw [hstep]
        exact True.intro
    | some a =>
      have han : a.Name = n := by simpa using List.find?_some hA2
      have hsma : mapGet (mapBuild ColumnModel.Name A.Columns) n = some a := by
        rw [mapGet_mapBuild_nodup ColumnModel.Name A.Columns hAc]
        exact hA2
      cases hB2 : B.Columns.find? (fun c => c.Name = n) with
      | none =>
        have htmn : mapGet (mapBuild ColumnModel.Name B.Columns) a.Name
            = none := by
          rw [mapGet_mapBuild_nodup ColumnModel.Name B.Columns hBc, han]
          exact hB2
        have hadd : colAdd (mapBuild ColumnModel.Name B.Columns) a = some a := by
          unfold colAdd
          rw [htmn]
          rfl
        show optEqNoKey (some a)
          (Option.or none (colAdd (mapBuild ColumnModel.Name B.Columns) a))
        rw [hadd]
        exact eqNoKey_refl a
      | some b =>
        have hbn : b.Name = n := by simpa using List.find?_some hB2
        have hsmb : mapGet (mapBuild ColumnModel.Name A.Columns) b.Name
            = some a := by
          rw [hbn]
          exact hsma
        by_cases hdiff : columnsAreDifferent a b
        · have hstep : colStep (mapBuild ColumnModel.Name A.Columns) b
              = some a := by
            unfold colStep
            rw [hsmb]
            show some (if columnsAreDifferent a b then a else b) = some a
            rw [if_pos hdiff]
          show optEqNoKey (some a)
            ((colStep (mapBuild ColumnModel.Name A.Columns) b).or
              ((some a).bind (colAdd (mapBuild ColumnModel.Name B.Columns))))
          rw [hstep]
          exact eqNoKey_refl a
        · have hstep : colStep (mapBuild ColumnModel.Name A.Columns) b
              = some b := by
            unfold colStep
            rw [hsmb]
            show some (if columnsAreDifferent a b then a else b) = some b
            rw [if_neg hdiff]
          show optEqNoKey (some a)
            ((colStep (mapBuild ColumnModel.Name A.Columns) b).or
              ((some a).bind (colAdd (mapBuild ColumnModel.Name B.Columns))))
          rw [hstep]
          exact columns_not_different_eq a b (han.trans hbn.symm)
            (Bool.eq_false_iff.mpr hdiff)
  · intro n
    have hRi : (applyPlan A B (Compare A B).Differences).Indexes
        = (B.Indexes.filter (idxKept (mapBuild IndexModel.Name B.Indexes)
              (mapBuild IndexModel.Name A.Indexes))
            ++ (mapBuild IndexModel.Name A.Indexes).filterMap
              (chunkAdd (mapBuild IndexModel.Name B.Indexes))).filter
          (idxKept2 (mapBuild IndexModel.Name A.Indexes)
            (mapBuild IndexModel.Name B.Indexes)) := by
      rw [hsplit, hi3, h2, hi1]
    have hkeep2 : ∀ x ∈ (mapBuild IndexModel.Name A.Indexes).filterMap
        (chunkAdd (mapBuild IndexModel.Name B.Indexes)),
        idxKept2 (mapBuild IndexModel.Name A.Indexes)
          (mapBuild IndexModel.Name B.Indexes) x = true := by
      intro x hx
      rcases List.mem_filterMap.mp hx with ⟨p, hp, hpx⟩
      have hxp : x = p.2 := by
        unfold chunkAdd at hpx
        cases hm : mapGet (mapBuild IndexModel.Name B.Indexes) p.1 with
        | none =>
          rw [hm] at hpx
          have hpx' : some p.2 = some x := hpx
          exact (Option.some_injective _ hpx').symm
        | some ti =>
          rw [hm] at hpx
          have hpx' : (if indexesAreDifferent p.2 ti then some p.2 else none)
              = some x := hpx
          by_cases hdiff : indexesAreDifferent p.2 ti
          · rw [if_pos hdiff] at hpx'
            exact (Option.some_injective _ hpx').symm
          · rw [if_neg hdiff] at hpx'
            cases hpx'
      have hxname : x.Name = p.1 := by
        rw [hxp]
        exact mapBuild_entry_key IndexModel.Name A.Indexes p hp
      unfold idxKept2
      rw [hxname]
      cases hm2 : mapGet (mapBuild IndexModel.Name B.Indexes) p.1 with
      | none =>
        rw [any_key_none (fun q =>
            !(mapGet (mapBuild IndexModel.Name A.Indexes) q.1).isSome) p.1 _
          (mapGet_none_find _ _ hm2)]
        rfl
      | some ti =>
        rw [any_key_single (fun q =>
            !(mapGet (mapBuild IndexModel.Name A.Indexes) q.1).isSome) p.1 ti _
          (mapBuild_keys_nodup _ _) (mapGet_eq_find _ _ _ hm2)]
        show (!(!(mapGet (mapBuild IndexModel.Name A.Indexes) p.1).isSome)) = true
        rw [mapGet_of_mem _ (mapBuild_keys_nodup _ _) p hp]
        rfl
    have hpart2 : ((mapBuild IndexModel.Name A.Indexes).filterMap
        (chunkAdd (mapBuild IndexModel.Name B.Indexes))).filter
          (idxKept2 (mapBuild IndexModel.Name A.Indexes)
            (mapBuild IndexModel.Name B.Indexes))
        = (mapBuild IndexModel.Name A.Indexes).filterMap
          (chunkAdd (mapBuild IndexModel.Name B.Indexes)) :=
      List.filter_eq_self.mpr hkeep2
    have hpart2' : (mapBuild IndexModel.Name A.Indexes).filterMap
        (chunkAdd (mapBuild IndexModel.Name B.Indexes))
        = A.Indexes.filterMap (chunkAddM (mapBuild IndexModel.Name B.Indexes)) := by
      rw [mapBuild_eq_pairify IndexModel.Name A.Indexes hAi, List.filterMap_map]
      rfl
    rw [hRi]
    unfold idxByName
    rw [List.filter_append, hpart2, hpart2', List.find?_append,
      List.filter_filter,
      find?_key_filter IndexModel.Name _ n B.Indexes hBi,
      find?_key_filterMap IndexModel.Name
        (chunkAddM (mapBuild IndexModel.Name B.Indexes)) (chunkAddM_name _) n
        A.Indexes hAi]
    cases hA2 : A.Indexes.find? (fun i => i.Name = n) with
    | none =>
      cases hB2 : B.Indexes.find? (fun i => i.Name = n) with
      | none => rfl
      | some b =>
        have hbn : b.Name = n := by simpa using List.find?_some hB2
        have hsimn : mapGet (mapBuild IndexModel.Name A.Indexes) n = none := by
          rw [mapGet_mapBuild_nodup IndexModel.Name A.Indexes hAi]
          exact hA2
        have htimn : mapGet (mapBuild IndexModel.Name B.Indexes) n = some b := by
          rw [mapGet_mapBuild_nodup IndexModel.Name B.Indexes hBi]
          exact hB2
        have hk2 : idxKept2 (mapBuild IndexModel.Name A.Indexes)
            (mapBuild IndexModel.Name B.Indexes) b = false := by
          unfold idxKept2
          rw [hbn, any_key_single (fun q =>
              !(mapGet (mapBuild IndexModel.Name A.Indexes) q.1).isSome) n b _
            (mapBuild_keys_nodup _ _) (mapGet_eq_find _ _ _ htimn)]
          show (!(!(mapGet (mapBuild IndexModel.Name A.Indexes) n).isSome)) = false
          rw [hsimn]
          rfl
        show ((if (idxKept2 (mapBuild IndexModel.Name A.Indexes)
              (mapBuild IndexModel.Name B.Indexes) b
            && idxKept (mapBuild IndexModel.Name B.Indexes)
              (mapBuild IndexModel.Name A.Indexes) b) then some b else none).or
            none) = none
        rw [hk2, Bool.false_and]
        rfl
    | some a =>
      have han : a.Name = n := by simpa using List.find?_some hA2
      have hsiman : mapGet (mapBuild IndexModel.Name A.Indexes) n = some a := by
        rw [mapGet_mapBuild_nodup IndexModel.Name A.Indexes hAi]
        exact hA2
      cases hB2 : B.Indexes.find? (fun i => i.Name = n) with
      | none =>
        have htimn : mapGet (mapBuild IndexModel.Name B.Indexes) n = none := by
          rw [mapGet_mapBuild_nodup IndexModel.Name B.Indexes hBi]
          exact hB2
        have haddv : chunkAddM (mapBuild IndexModel.Name B.Indexes) a
            = some a := by
          unfold chunkAddM chunkAdd
          dsimp only
          rw [han, htimn]
        show Option.or none (chunkAddM (mapBuild IndexModel.Name B.Indexes) a)
          = some a
        rw [haddv]
        rfl
      | some b =>
        have hbn : b.Name = n := by simpa using List.find?_some hB2
        have htimn : mapGet (mapBuild IndexModel.Name B.Indexes) n = some b := by
          rw [mapGet_mapBuild_nodup IndexModel.Name B.Indexes hBi]
          exact hB2
        by_cases hdiff : indexesAreDifferent a b
        · have hcd : chunkDrops (mapBuild IndexModel.Name B.Indexes) (n, a)
              = true := by
            unfold chunkDrops
            dsimp only
            rw [htimn]
            exact hdiff
          have hk1 : idxKept (mapBuild IndexModel.Name B.Indexes)
              (mapBuild IndexModel.Name A.Indexes) b = false := by
            unfold idxKept
            rw [hbn, any_key_single
              (chunkDrops (mapBuild IndexModel.Name B.Indexes)) n a _
              (mapBuild_keys_nodup _ _) (mapGet_eq_find _ _ _ hsiman)]
            show (!(chunkDrops (mapBuild IndexModel.Name B.Indexes) (n, a)))
              = false
            rw [hcd]
            rfl
          have haddv : chunkAddM (mapBuild IndexModel.Name B.Indexes) a
              = some a := by
            unfold chunkAddM chunkAdd
            dsimp only
            rw [han, htimn]
            show (if indexesAreDifferent a b then some a else none) = some a
            rw [if_pos hdiff]
          show ((if (idxKept2 (mapBuild IndexModel.Name A.Indexes)
                (mapBuild IndexModel.Name B.Indexes) b
              && idxKept (mapBuild IndexModel.Name B.Indexes)
                (mapBuild IndexModel.Name A.Indexes) b) then some b else none).or
              (chunkAddM (mapBuild IndexModel.Name B.Indexes) a)) = some a
          rw [hk1, Bool.and_false, haddv]
          rfl
        · have hcd : chunkDrops (mapBuild IndexModel.Name B.Indexes) (n, a)
              = false := by
            unfold chunkDrops
            dsimp only
            rw [htimn]
            exact Bool.eq_false_iff.mpr hdiff
          have hk1 : idxKept (mapBuild IndexModel.Name B.Indexes)
              (mapBuild IndexModel.Name A.Indexes) b = true := by
            unfold idxKept
            rw [hbn, any_key_single
              (chunkDrops (mapBuild IndexModel.Name B.Indexes)) n a _
              (mapBuild_keys_nodup _ _) (mapGet_eq_find _ _ _ hsiman)]
            show (!(chunkDrops (mapBuild IndexModel.Name B.Indexes) (n, a)))
              = true
            rw [hcd]
            rfl
          have hk2 : idxKept2 (mapBuild IndexModel.Name A.Indexes)
              (mapBuild IndexModel.Name B.Indexes) b = true := by
            unfold idxKept2
            rw [hbn, any_key_single (fun q =>
                !(mapGet (mapBuild IndexModel.Name A.Indexes) q.1).isSome) n b _
              (mapBuild_keys_nodup _ _) (mapGet_eq_find _ _ _ htimn)]
            show (!(!(mapGet (mapBuild IndexModel.Name A.Indexes) n).isSome))
              = true
            rw [hsiman]
            rfl
          have hab : a = b := indexes_not_different_eq a b
            (han.trans hbn.symm) (Bool.eq_false_iff.mpr hdiff)
          show ((if (idxKept2 (mapBuild IndexModel.Name A.Indexes)
                (mapBuild IndexModel.Name B.Indexes) b
              && idxKept (mapBuild IndexModel.Name B.Indexes)
                (mapBuild IndexModel.Name A.Indexes) b) then some b else none).or
              ((some a).bind (chunkAddM (mapBuild IndexModel.Name B.Indexes))))
            = some a
          rw [hk1, hk2]
          show some b = some a
          rw [hab]
  · rw [hsplit]
    exact applyPlan_pk_apply A B _ (by rw [hp2, hp1])

/-- C4 counterexample.  Round-trip convergence to a structurally equal
snapshot fails: for the source with columns `a, b` and the target with
only `b`, the plan is a single `ADD_COLUMN a` whose execution appends `a`
after `b`, so the rebuilt column list is `[b, a]` while the source's is
`[a, b]`. -/
theorem compare_apply_not_structurally_equal :
    applyPlan rtSource rtTarget (Compare rtSource rtTarget).Differences
      ≠ rtSource := by
  decide

/-- Witness for `compare_apply_converges` on the same two snapshots: the
name-distinctness hypotheses hold and the plan's execution restores every
column lookup (up to `ColumnKey`), every index lookup and the primary-key
columns. -/
theorem compare_apply_converges_witness :
    ((rtSource.Columns.map ColumnModel.Name).Nodup
      ∧ (rtTarget.Columns.map ColumnModel.Name).Nodup
      ∧ (rtSource.Indexes.map IndexModel.Name).Nodup
      ∧ (rtTarget.Indexes.map IndexModel.Name).Nodup)
    ∧ ((∀ n, optEqNoKey (colByName rtSource.Columns n)
          (colByName (applyPlan rtSource rtTarget
            (Compare rtSource rtTarget).Differences).Columns n))
      ∧ (∀ n, idxByName (applyPlan rtSource rtTarget
            (Compare rtSource rtTarget).Differences).Indexes n
          = idxByName rtSource.Indexes n)
      ∧ (applyPlan rtSource rtTarget
            (Compare rtSource rtTarget).Differences).PrimaryKey.map
          PrimaryKeyModel.Columns
        = rtSource.PrimaryKey.map PrimaryKeyModel.Columns) :=
  ⟨⟨by decide, by decide, by decide, by decide⟩,
    compare_apply_converges rtSource rtTarget (by decide) (by decide)
      (by decide) (by decide)⟩
